import Mathlib

/-!
Verification of the vid-snip server core (src/backend/server.js, second
revision — the one with the heartbeat endpoint and the 5-minute client
timeout) and of the segment-merge algorithm of the browser client
(endSelection / checkOverlap / mergeSegments in the React component).

JavaScript `Map` objects are modelled as association lists in insertion
order; timestamps (`Date.now()`) are natural numbers of milliseconds;
the on-disk contents of the three directories are lists of filenames.
Each HTTP handler is modelled as a pure function from the request data
and the current server state to a response value and the next state.
The external encoder binary is an oracle `ℕ → Bool` giving the
success/failure of the n-th `exec` invocation of a pipeline run.
-/

/-! ### Association-list model of a JavaScript Map

A JS `Map` holds at most one binding per key, iterated in insertion
order.  We model it as `List (String × α)`; `mapSet` replaces the
binding in place when the key is present (as `Map.prototype.set` does)
and appends otherwise, and `mapDelete` removes every binding of the key
(on lists with unique keys — the only ones a JS `Map` can denote —
this is exactly `Map.prototype.delete`). -/

def mapGet {α : Type} (k : String) : List (String × α) → Option α
  | [] => none
  | p :: m => if p.1 = k then some p.2 else mapGet k m

def mapHasKey {α : Type} (k : String) (m : List (String × α)) : Bool :=
  m.any (fun p => p.1 = k)

def mapReplace {α : Type} (k : String) (v : α) : List (String × α) → List (String × α)
  | [] => []
  | p :: m => if p.1 = k then (k, v) :: mapReplace k v m else p :: mapReplace k v m

def mapSet {α : Type} (k : String) (v : α) (m : List (String × α)) : List (String × α) :=
  if mapHasKey k m then mapReplace k v m else m ++ [(k, v)]

def mapDelete {α : Type} (k : String) : List (String × α) → List (String × α)
  | [] => []
  | p :: m => if p.1 = k then mapDelete k m else p :: mapDelete k m

theorem mapGet_append_left {α : Type} (k : String) (m m' : List (String × α))
    (h : mapGet k m = none) : mapGet k (m ++ m') = mapGet k m' := by
  induction m with
  | nil => rfl
  | cons p m ih =>
    by_cases hp : p.1 = k
    · simp [mapGet, hp] at h
    · simp only [List.cons_append, mapGet, if_neg hp] at h ⊢
      exact ih h

theorem mapHasKey_false_get {α : Type} (k : String) (m : List (String × α))
    (h : mapHasKey k m = false) : mapGet k m = none := by
  induction m with
  | nil => rfl
  | cons p m ih =>
    unfold mapHasKey at h
    rw [List.any_cons, Bool.or_eq_false_iff] at h
    unfold mapGet
    rw [if_neg (by simpa using h.1)]
    exact ih h.2

theorem mapGet_mapReplace_self {α : Type} (k : String) (v : α) (m : List (String × α))
    (h : mapHasKey k m = true) : mapGet k (mapReplace k v m) = some v := by
  induction m with
  | nil => simp [mapHasKey] at h
  | cons p m ih =>
    unfold mapHasKey at h
    rw [List.any_cons, Bool.or_eq_true] at h
    by_cases hp : p.1 = k
    · simp [mapReplace, hp, mapGet]
    · have hm : mapHasKey k m = true := by
        cases h with
        | inl h0 => exact absurd (by simpa using h0) hp
        | inr h0 => exact h0
      simp [mapReplace, hp, mapGet, ih hm]

theorem mapGet_mapSet_self {α : Type} (k : String) (v : α) (m : List (String × α)) :
    mapGet k (mapSet k v m) = some v := by
  unfold mapSet
  by_cases h : mapHasKey k m
  · simp [h, mapGet_mapReplace_self k v m h]
  · simp at h
    rw [if_neg (by simp [h]), mapGet_append_left k m _ (mapHasKey_false_get k m h)]
    simp [mapGet]

theorem mapGet_mapReplace_other {α : Type} (k k' : String) (v : α) (m : List (String × α))
    (h : k ≠ k') : mapGet k (mapReplace k' v m) = mapGet k m := by
  induction m with
  | nil => rfl
  | cons p m ih =>
    by_cases hp : p.1 = k'
    · have hpk : p.1 ≠ k := fun hh => h (by rw [← hh]; exact hp)
      simp [mapReplace, hp, mapGet, Ne.symm h, hpk, ih]
    · by_cases hk : p.1 = k
      · simp [mapReplace, hp, mapGet, hk, h]
      · simp [mapReplace, hp, mapGet, hk, ih]

theorem mapGet_append_single_other {α : Type} (k k' : String) (v : α)
    (m : List (String × α)) (h : k ≠ k') : mapGet k (m ++ [(k', v)]) = mapGet k m := by
  induction m with
  | nil => simp [mapGet, Ne.symm h]
  | cons p m ih =>
    simp only [List.cons_append, mapGet]
    by_cases hk : p.1 = k
    · simp [hk]
    · simp [hk, ih]

theorem mapGet_mapSet_other {α : Type} (k k' : String) (v : α) (m : List (String × α))
    (h : k ≠ k') : mapGet k (mapSet k' v m) = mapGet k m := by
  unfold mapSet
  by_cases hh : mapHasKey k' m
  · simp [hh, mapGet_mapReplace_other k k' v m h]
  · rw [if_neg (by simp [hh])]
    exact mapGet_append_single_other k k' v m h

theorem mapGet_mapDelete_self {α : Type} (k : String) (m : List (String × α)) :
    mapGet k (mapDelete k m) = none := by
  induction m with
  | nil => rfl
  | cons p m ih =>
    by_cases hp : p.1 = k
    · simp [mapDelete, hp, ih]
    · simp [mapDelete, hp, mapGet, ih]

theorem mapGet_mapDelete_other {α : Type} (k k' : String) (m : List (String × α))
    (h : k ≠ k') : mapGet k (mapDelete k' m) = mapGet k m := by
  induction m with
  | nil => rfl
  | cons p m ih =>
    by_cases hp : p.1 = k'
    · have hpk : p.1 ≠ k := fun hh => h (by rw [← hh]; exact hp)
      simp [mapDelete, hp, mapGet, hpk, Ne.symm h, ih]
    · simp [mapDelete, hp, mapGet, ih]

theorem mapGet_mapSet_same_val {α : Type} (k k' : String) (v : α) (m : List (String × α))
    (h : mapGet k m = some v) : mapGet k (mapSet k' v m) = some v := by
  by_cases hk : k = k'
  · subst hk; exact mapGet_mapSet_self k v m
  · rw [mapGet_mapSet_other k k' v m hk]; exact h

theorem mapGet_mem {α : Type} (k : String) (v : α) (m : List (String × α))
    (h : mapGet k m = some v) : (k, v) ∈ m := by
  induction m with
  | nil => simp [mapGet] at h
  | cons p m ih =>
    by_cases hp : p.1 = k
    · simp [mapGet, hp] at h
      have hpv : p = (k, v) := Prod.ext hp h
      rw [← hpv]
      exact List.mem_cons_self p m
    · simp [mapGet, hp] at h
      exact List.mem_cons_of_mem p (ih h)

/-! ### Segment merger (browser client, endSelection)

A `Segment` is the client's `{ start, end, color }` object; the JS field
`end` is a Lean keyword, so it is called `stop` here.  Times are
rationals (the client works with decimal second values; the binary
floating-point representation is not modelled, only the decimal
rounding `parseFloat(x.toFixed(2))` as exact rational rounding to two
decimal places). -/

structure Segment where
  start : ℚ
  stop : ℚ
  color : String
deriving DecidableEq, Repr

/-- The checkOverlap function of the client (both disjuncts written as in
the source). -/
def checkOverlap (segment1 segment2 : Segment) : Bool :=
  (decide (segment1.start ≤ segment2.stop) && decide (segment1.stop ≥ segment2.start)) ||
  (decide (segment2.start ≤ segment1.stop) && decide (segment2.stop ≥ segment1.start))

/-- The mergeSegments function of the client: fold two overlapping
segments into one, keeping the first segment's color. -/
def mergeSegments (segment1 segment2 : Segment) : Segment :=
  ⟨min segment1.start segment2.start, max segment1.stop segment2.stop, segment1.color⟩

/-- The color palette `segmentColors` of the client. -/
def segmentColors : List String :=
  ["#0077BE", "#00A8E8", "#00C9FF", "#00E5FF", "#1DE9B6",
   "#00E676", "#69F0AE", "#B2FF59", "#76FF03", "#64DD17"]

/-- The merge loop of `endSelection`: walk the existing segment array
once; every existing segment overlapping the (possibly grown) proposed
segment is folded into it and removed (the JS loop splices the element
out and decrements `i`, so it continues with the next element and never
revisits kept ones); non-overlapping segments are kept in order.
Returns the grown segment, the kept segments, and the `hasOverlap`
flag. -/
def mergeLoop (m : Segment) : List Segment → Segment × List Segment × Bool
  | [] => (m, [], false)
  | s :: rest =>
    if checkOverlap m s then
      let r := mergeLoop (mergeSegments m s) rest
      (r.1, r.2.1, true)
    else
      let r := mergeLoop m rest
      (r.1, s :: r.2.1, r.2.2)

/-- Exact rational model of `parseFloat(x.toFixed(2))`: round to two
decimal places. -/
def toFixed2 (q : ℚ) : ℚ := (round (q * 100) : ℚ) / 100

/-- The body of `endSelection` after the new segment object has been
built: run the merge loop over the existing array; if anything
overlapped, push the merged segment, otherwise push the new segment
unchanged (the two `updatedSegments.push` branches of the source);
finally re-sort ascending by `start` (the JS comparator
`(a, b) => a.start - b.start`, a stable sort). -/
def endSelectionPush (newSegment : Segment) (segments : List Segment) : List Segment :=
  if (mergeLoop newSegment segments).2.2 then
    List.insertionSort (fun a b => a.start ≤ b.start)
      ((mergeLoop newSegment segments).2.1 ++ [(mergeLoop newSegment segments).1])
  else
    List.insertionSort (fun a b => a.start ≤ b.start)
      ((mergeLoop newSegment segments).2.1 ++ [newSegment])

/-- The endSelection state update of the client (the part that commits a
new proposed interval `[selectionStart, endTime]` into the segment
array): a degenerate proposal with `endTime ≤ selectionStart` is
dropped; otherwise the proposal is normalized (`Math.min`/`Math.max`),
rounded with `toFixed(2)`, given the next palette color, and committed
by `endSelectionPush`. -/
def endSelection (selectionStart endTime : ℚ) (segments : List Segment) : List Segment :=
  if selectionStart < endTime then
    endSelectionPush
      ⟨toFixed2 (min selectionStart endTime), toFixed2 (max selectionStart endTime),
        segmentColors.getD (segments.length % segmentColors.length) ""⟩
      segments
  else segments

/-- Commit a sequence of proposed intervals, starting from the empty set. -/
def commitSegments (proposals : List (ℚ × ℚ)) : List Segment :=
  proposals.foldl (fun segs p => endSelection p.1 p.2 segs) []

/-! ### The merge invariant (claim C1) -/

/-- Strict separation: `a` lies entirely before `b` with a gap (touching
segments count as overlapping for `checkOverlap`, so disjoint committed
segments are strictly separated). -/
def segGap (a b : Segment) : Prop := a.stop < b.start

/-- Either order of strict separation. -/
def segSep (a b : Segment) : Prop := segGap a b ∨ segGap b a

/-- Well-formedness of a segment list: every segment has `start ≤ end`. -/
def segWF (l : List Segment) : Prop := ∀ s ∈ l, s.start ≤ s.stop

theorem checkOverlap_iff (a b : Segment) :
    checkOverlap a b = true ↔ (a.start ≤ b.stop ∧ b.start ≤ a.stop) := by
  unfold checkOverlap
  simp only [Bool.or_eq_true, Bool.and_eq_true, decide_eq_true_eq, ge_iff_le]
  tauto

theorem checkOverlap_eq_false_iff (a b : Segment) :
    checkOverlap a b = false ↔ (b.stop < a.start ∨ a.stop < b.start) := by
  rw [Bool.eq_false_iff, Ne, checkOverlap_iff, not_and_or, not_le, not_le]

theorem segSep_symm : ∀ {a b : Segment}, segSep a b → segSep b a := by
  intro a b h
  exact h.elim Or.inr Or.inl

theorem mergeLoop_all_right (m : Segment) (l : List Segment)
    (h : ∀ r ∈ l, m.stop < r.start) : mergeLoop m l = (m, l, false) := by
  induction l with
  | nil => rfl
  | cons s rest ih =>
    have hov : checkOverlap m s = false :=
      (checkOverlap_eq_false_iff m s).mpr (Or.inr (h s (List.mem_cons_self s rest)))
    have ih' := ih (fun r hr => h r (List.mem_cons_of_mem s hr))
    simp [mergeLoop, hov, ih']

theorem mergeLoop_start_lb (c : ℚ) : ∀ (l : List Segment) (m : Segment),
    c < m.start → (∀ r ∈ l, c < r.start) → c < (mergeLoop m l).1.start := by
  intro l
  induction l with
  | nil =>
    intro m hm _
    simpa [mergeLoop] using hm
  | cons s rest ih =>
    intro m hm hl
    by_cases hov : checkOverlap m s
    · have hms : c < (mergeSegments m s).start := by
        simp only [mergeSegments, lt_min_iff]
        exact ⟨hm, hl s (List.mem_cons_self s rest)⟩
      simpa [mergeLoop, hov] using
        ih (mergeSegments m s) hms (fun r hr => hl r (List.mem_cons_of_mem s hr))
    · simpa [mergeLoop, hov] using ih m hm (fun r hr => hl r (List.mem_cons_of_mem s hr))

theorem mergeLoop_wf : ∀ (l : List Segment) (m : Segment),
    m.start ≤ m.stop → (mergeLoop m l).1.start ≤ (mergeLoop m l).1.stop := by
  intro l
  induction l with
  | nil =>
    intro m hm
    simpa [mergeLoop] using hm
  | cons s rest ih =>
    intro m hm
    by_cases hov : checkOverlap m s
    · have : (mergeSegments m s).start ≤ (mergeSegments m s).stop := by
        simp only [mergeSegments]
        calc min m.start s.start ≤ m.start := min_le_left _ _
          _ ≤ m.stop := hm
          _ ≤ max m.stop s.stop := le_max_left _ _
      simpa [mergeLoop, hov] using ih (mergeSegments m s) this
    · simpa [mergeLoop, hov] using ih m hm

theorem mergeLoop_kept_sublist : ∀ (l : List Segment) (m : Segment),
    (mergeLoop m l).2.1.Sublist l := by
  intro l
  induction l with
  | nil =>
    intro m
    simp [mergeLoop]
  | cons s rest ih =>
    intro m
    by_cases hov : checkOverlap m s
    · simpa [mergeLoop, hov] using ((ih (mergeSegments m s)).cons s)
    · simpa [mergeLoop, hov] using ((ih m).cons₂ s)

theorem mergeLoop_flag_false : ∀ (l : List Segment) (m : Segment),
    (mergeLoop m l).2.2 = false → (mergeLoop m l).1 = m ∧ (mergeLoop m l).2.1 = l := by
  intro l
  induction l with
  | nil =>
    intro m _
    simp [mergeLoop]
  | cons s rest ih =>
    intro m hf
    by_cases hov : checkOverlap m s
    · simp [mergeLoop, hov] at hf
    · simp only [mergeLoop, if_neg hov] at hf ⊢
      have := ih m hf
      simp [this.1, this.2]

theorem mergeLoop_kept_gap : ∀ (l : List Segment) (m : Segment),
    l.Pairwise segGap → segWF l →
    ∀ s ∈ (mergeLoop m l).2.1,
      (mergeLoop m l).1.stop < s.start ∨ s.stop < (mergeLoop m l).1.start := by
  intro l
  induction l with
  | nil =>
    intro m _ _ s hs
    simp [mergeLoop] at hs
  | cons s rest ih =>
    intro m hpw hwf
    rw [List.pairwise_cons] at hpw
    have hwfrest : segWF rest := fun t ht => hwf t (List.mem_cons_of_mem s ht)
    by_cases hov : checkOverlap m s
    · intro t ht
      simp only [mergeLoop, if_pos hov] at ht ⊢
      exact ih (mergeSegments m s) hpw.2 hwfrest t ht
    · have hsplit := (checkOverlap_eq_false_iff m s).mp (Bool.eq_false_iff.mpr hov)
      rcases hsplit with hleft | hright
      · -- s lies entirely before m: m grows only to the right of s.stop
        intro t ht
        simp only [mergeLoop, if_neg hov] at ht ⊢
        rcases List.mem_cons.mp ht with rfl | ht'
        · right
          exact mergeLoop_start_lb t.stop rest m hleft (fun r hr => hpw.1 r hr)
        · exact ih m hpw.2 hwfrest t ht'
      · -- m lies entirely before s, hence before all of rest: nothing merges
        have hall : ∀ r ∈ rest, m.stop < r.start := fun r hr =>
          lt_trans (lt_of_lt_of_le hright (hwf s (List.mem_cons_self s rest))) (hpw.1 r hr)
        have heq := mergeLoop_all_right m rest hall
        intro t ht
        simp only [mergeLoop, if_neg hov, heq] at ht ⊢
        rcases List.mem_cons.mp ht with rfl | ht'
        · left; exact hright
        · left; exact hall t ht'

instance : IsTotal Segment (fun a b : Segment => a.start ≤ b.start) :=
  ⟨fun a b => le_total a.start b.start⟩

instance : IsTrans Segment (fun a b : Segment => a.start ≤ b.start) :=
  ⟨fun _ _ _ hab hbc => le_trans hab hbc⟩

theorem pairwise_and_of_pairwise {α : Type} {R S : α → α → Prop} :
    ∀ {l : List α}, l.Pairwise R → l.Pairwise S →
      l.Pairwise (fun a b => R a b ∧ S a b) := by
  intro l
  induction l with
  | nil =>
    intro _ _
    exact List.Pairwise.nil
  | cons x xs ih =>
    intro hr hs
    rw [List.pairwise_cons] at hr hs ⊢
    exact ⟨fun y hy => ⟨hr.1 y hy, hs.1 y hy⟩, ih hr.2 hs.2⟩

theorem toFixed2_mono {x y : ℚ} (h : x ≤ y) : toFixed2 x ≤ toFixed2 y := by
  unfold toFixed2
  rw [div_le_div_iff_of_pos_right (by norm_num : (0:ℚ) < 100)]
  have : round (x * 100) ≤ round (y * 100) := by
    rw [round_eq, round_eq]
    exact Int.floor_le_floor (by linarith)
  exact_mod_cast this

/-- Sorting the kept segments with the pushed segment restores the
invariant, given pairwise separation of the input. -/
theorem sortPush_inv (u : List Segment)
    (hu_pw : u.Pairwise segSep) (hu_wf : segWF u) :
    (List.insertionSort (fun a b : Segment => a.start ≤ b.start) u).Pairwise segGap ∧
      segWF (List.insertionSort (fun a b : Segment => a.start ≤ b.start) u) := by
  have hperm : (List.insertionSort (fun x y : Segment => x.start ≤ y.start) u).Perm u :=
    List.perm_insertionSort _ _
  have hsorted :
      (List.insertionSort (fun x y : Segment => x.start ≤ y.start) u).Pairwise
        (fun x y : Segment => x.start ≤ y.start) :=
    List.sorted_insertionSort _ _
  have hs_pw :
      (List.insertionSort (fun x y : Segment => x.start ≤ y.start) u).Pairwise segSep :=
    (hperm.pairwise_iff (fun hxy => segSep_symm hxy)).mpr hu_pw
  have hs_wf :
      segWF (List.insertionSort (fun x y : Segment => x.start ≤ y.start) u) :=
    fun s hs => hu_wf s (hperm.mem_iff.mp hs)
  refine ⟨?_, hs_wf⟩
  have hcomb := pairwise_and_of_pairwise hsorted hs_pw
  refine hcomb.imp_of_mem ?_
  intro x y hx hy hxy
  rcases hxy.2 with hgap | hgap
  · exact hgap
  · exfalso
    have hywf := hs_wf y hy
    have : y.stop < y.stop := lt_of_lt_of_le hgap (le_trans hxy.1 hywf)
    exact lt_irrefl _ this

/-- One `endSelectionPush` call preserves the strengthened invariant:
strict separation in list order plus well-formedness. -/
theorem endSelectionPush_preserves (newSegment : Segment) (l : List Segment)
    (hnwf : newSegment.start ≤ newSegment.stop)
    (h1 : l.Pairwise segGap) (h2 : segWF l) :
    (endSelectionPush newSegment l).Pairwise segGap ∧
      segWF (endSelectionPush newSegment l) := by
  have hkept_sub : (mergeLoop newSegment l).2.1.Sublist l := mergeLoop_kept_sublist l newSegment
  have hkept_pw : (mergeLoop newSegment l).2.1.Pairwise segGap := h1.sublist hkept_sub
  have hkept_wf : segWF (mergeLoop newSegment l).2.1 := fun s hs => h2 s (hkept_sub.mem hs)
  have hm_wf : (mergeLoop newSegment l).1.start ≤ (mergeLoop newSegment l).1.stop :=
    mergeLoop_wf l newSegment hnwf
  have hsep : ∀ s ∈ (mergeLoop newSegment l).2.1,
      (mergeLoop newSegment l).1.stop < s.start ∨ s.stop < (mergeLoop newSegment l).1.start :=
    mergeLoop_kept_gap l newSegment h1 h2
  have hu_pw : ((mergeLoop newSegment l).2.1 ++ [(mergeLoop newSegment l).1]).Pairwise segSep := by
    rw [List.pairwise_append]
    refine ⟨hkept_pw.imp (fun h => Or.inl h), List.pairwise_singleton _ _, ?_⟩
    intro x hx y hy
    rw [List.mem_singleton] at hy
    subst hy
    exact segSep_symm (hsep x hx)
  have hu_wf : segWF ((mergeLoop newSegment l).2.1 ++ [(mergeLoop newSegment l).1]) := by
    intro s hs
    rcases List.mem_append.mp hs with hs' | hs'
    · exact hkept_wf s hs'
    · rw [List.mem_singleton] at hs'
      subst hs'
      exact hm_wf
  unfold endSelectionPush
  by_cases hf : (mergeLoop newSegment l).2.2
  · rw [if_pos hf]
    exact sortPush_inv _ hu_pw hu_wf
  · rw [if_neg hf]
    have hff := mergeLoop_flag_false l newSegment (Bool.eq_false_iff.mpr hf)
    have hlist : (mergeLoop newSegment l).2.1 ++ [newSegment]
        = (mergeLoop newSegment l).2.1 ++ [(mergeLoop newSegment l).1] := by rw [hff.1]
    rw [hlist]
    exact sortPush_inv _ hu_pw hu_wf

/-- One endSelection call preserves the strengthened invariant. -/
theorem endSelection_preserves (a b : ℚ) (l : List Segment)
    (h1 : l.Pairwise segGap) (h2 : segWF l) :
    (endSelection a b l).Pairwise segGap ∧ segWF (endSelection a b l) := by
  unfold endSelection
  by_cases hab : a < b
  · rw [if_pos hab]
    exact endSelectionPush_preserves _ l (toFixed2_mono min_le_max) h1 h2
  · rw [if_neg hab]
    exact ⟨h1, h2⟩

theorem commitSegments_strong_inv (proposals : List (ℚ × ℚ)) :
    (commitSegments proposals).Pairwise segGap ∧ segWF (commitSegments proposals) := by
  unfold commitSegments
  have hgen : ∀ (ps : List (ℚ × ℚ)) (l : List Segment),
      l.Pairwise segGap → segWF l →
      (ps.foldl (fun segs p => endSelection p.1 p.2 segs) l).Pairwise segGap ∧
        segWF (ps.foldl (fun segs p => endSelection p.1 p.2 segs) l) := by
    intro ps
    induction ps with
    | nil =>
      intro l h1 h2
      exact ⟨h1, h2⟩
    | cons p ps ih =>
      intro l h1 h2
      have hstep := endSelection_preserves p.1 p.2 l h1 h2
      simpa [List.foldl_cons] using ih (endSelection p.1 p.2 l) hstep.1 hstep.2
  exact hgen proposals [] List.Pairwise.nil (fun s hs => absurd hs (List.not_mem_nil s))

/-- C1.  For every sequence of proposed segments committed through the
segment-merge operation (`endSelection`), starting from the empty set,
the committed segment set is pairwise disjoint (`checkOverlap` is false
on every pair) and sorted strictly ascending by start time.  Since the
proposal list is universally quantified, this holds after each
insertion. -/
theorem commitSegments_disjoint_sorted (proposals : List (ℚ × ℚ)) :
    (commitSegments proposals).Pairwise (fun a b => checkOverlap a b = false) ∧
      (commitSegments proposals).Pairwise (fun a b => a.start < b.start) := by
  have h := commitSegments_strong_inv proposals
  constructor
  · refine h.1.imp ?_
    intro a b hgap
    exact (checkOverlap_eq_false_iff a b).mpr (Or.inr hgap)
  · refine h.1.imp_of_mem ?_
    intro a b ha _ hgap
    exact lt_of_le_of_lt (h.2 a ha) hgap

/-! ### Server state (src/backend/server.js)

The mutable module state of the server: the three trackers of
`fileTracker` (`uploads`, `output`, `temp`, each
`filename -> { timestamp, clientId, inUse }`), the `clients` map
(`clientId -> { lastActivity, files, originalName }`), the
`downloadTokens` map (`token -> { filename, created, originalName }`),
and the contents of the three directories on disk. -/

/-- The value stored in a tracker map: `{ timestamp, clientId, inUse }`. -/
structure FileData where
  timestamp : ℕ
  clientId : String
  inUse : Bool
deriving DecidableEq, Repr

/-- An element of a client's `files` array: `{ filename, type }` (the JS
field `type` is called `ftype` here). -/
structure FileRef where
  filename : String
  ftype : String
deriving DecidableEq, Repr

/-- The value stored in the `clients` map:
`{ lastActivity, files, originalName }` (the `originalName` property is
only assigned on upload, so it is optional). -/
structure ClientData where
  lastActivity : ℕ
  files : List FileRef
  originalName : Option String
deriving DecidableEq, Repr

/-- The value stored in the `downloadTokens` map:
`{ filename, created, originalName }`. -/
structure TokenData where
  filename : String
  created : ℕ
  originalName : String
deriving DecidableEq, Repr

structure ServerState where
  uploads : List (String × FileData)
  output : List (String × FileData)
  temp : List (String × FileData)
  clients : List (String × ClientData)
  downloadTokens : List (String × TokenData)
  uploadsDisk : List String
  outputDisk : List String
  tempDisk : List String
deriving DecidableEq, Repr

/-- The retention window `maxAge = 30 * 60 * 1000` of `scheduledCleanup`. -/
def maxAge : ℕ := 30 * 60 * 1000

/-- The heartbeat timeout `5 * 60 * 1000` of `scheduledCleanup`. -/
def heartbeatTimeout : ℕ := 5 * 60 * 1000

/-- Which tracker/directory a `type` string selects.  `trackFile` and
`deleteFile` both send `"upload"` to the uploads tracker, `"output"` to
the output tracker, and anything else to the temp tracker (the only
call sites use the three literals). -/
inductive TKind where
  | up
  | out
  | tmp
deriving DecidableEq, Repr

def tkind (ftype : String) : TKind :=
  if ftype = "upload" then .up else if ftype = "output" then .out else .tmp

def getTrackerK (k : TKind) (s : ServerState) : List (String × FileData) :=
  match k with
  | .up => s.uploads
  | .out => s.output
  | .tmp => s.temp

def setTrackerK (k : TKind) (t : List (String × FileData)) (s : ServerState) : ServerState :=
  match k with
  | .up => { s with uploads := t }
  | .out => { s with output := t }
  | .tmp => { s with temp := t }

def getDiskK (k : TKind) (s : ServerState) : List String :=
  match k with
  | .up => s.uploadsDisk
  | .out => s.outputDisk
  | .tmp => s.tempDisk

def setDiskK (k : TKind) (d : List String) (s : ServerState) : ServerState :=
  match k with
  | .up => { s with uploadsDisk := d }
  | .out => { s with outputDisk := d }
  | .tmp => { s with tempDisk := d }

def getTracker (ftype : String) (s : ServerState) : List (String × FileData) :=
  getTrackerK (tkind ftype) s

def getDisk (ftype : String) (s : ServerState) : List String :=
  getDiskK (tkind ftype) s

/-- Removal of a file from a directory (`fs.unlinkSync`); a directory
holds each name at most once, so complete removal is the faithful
model. -/
def diskRemove (fn : String) : List String → List String
  | [] => []
  | x :: l => if x = fn then diskRemove fn l else x :: diskRemove fn l

/-- The trackFile function: register `filename` in the tracker selected
by `type`, create the client record if absent, push
`{ filename, type }` onto the client's `files` array and refresh
`lastActivity`.  Every `Date.now()` of one call is the single value
`now`. -/
def trackFile (now : ℕ) (filename ftype clientId : String) (s : ServerState) : ServerState :=
  let s1 := setTrackerK (tkind ftype)
    (mapSet filename ⟨now, clientId, false⟩ (getTrackerK (tkind ftype) s)) s
  let clients1 :=
    if (mapGet clientId s1.clients).isSome then s1.clients
    else mapSet clientId ⟨now, [], none⟩ s1.clients
  let cd := (mapGet clientId clients1).getD ⟨now, [], none⟩
  let cd2 : ClientData := { cd with files := cd.files ++ [⟨filename, ftype⟩], lastActivity := now }
  { s1 with clients := mapSet clientId cd2 clients1 }

/-- The deleteFile function: refuse when the tracked entry is marked
in-use; when the file exists on disk, unlink it and drop the tracker
entry, returning true; otherwise return false and leave the tracker
entry in place.  (`unlinkSync` errors are not modelled; the returned
Bool is the JS return value.) -/
def deleteFile (filename ftype : String) (s : ServerState) : Bool × ServerState :=
  if ((mapGet filename (getTrackerK (tkind ftype) s)).map (·.inUse)).getD false then
    (false, s)
  else if filename ∈ getDiskK (tkind ftype) s then
    (true,
     setDiskK (tkind ftype) (diskRemove filename (getDiskK (tkind ftype) s))
       (setTrackerK (tkind ftype)
         (mapDelete filename (getTrackerK (tkind ftype) s)) s))
  else (false, s)

/-- The cleanupClientFiles function: if the client exists, delete each
of its files with `deleteFile` and remove the client record. -/
def cleanupClientFiles (clientId : String) (s : ServerState) : ServerState :=
  match mapGet clientId s.clients with
  | none => s
  | some client =>
    let s1 := client.files.foldl (fun acc f => (deleteFile f.filename f.ftype acc).2) s
    { s1 with clients := mapDelete clientId s1.clients }

/-- One tracker pass of `scheduledCleanup`: for every entry that is not
in-use and older than `maxAge`, call `deleteFile`.  The JS `for..of`
loop over the live map only ever deletes the entry it is visiting, so
it is a fold over the entry list at the start of the pass. -/
def sweepTrackerPass (now : ℕ) (ftype : String) (s : ServerState) : ServerState :=
  (getTracker ftype s).foldl
    (fun acc kv =>
      if kv.2.inUse = false ∧ now - kv.2.timestamp > maxAge then
        (deleteFile kv.1 ftype acc).2
      else acc) s

/-- The client pass of `scheduledCleanup`: clean up every client whose
`lastActivity` is older than `heartbeatTimeout`.  Again a fold over the
entries at the start of the pass (the loop body deletes only the
visited client). -/
def sweepClients (now : ℕ) (s : ServerState) : ServerState :=
  s.clients.foldl
    (fun acc kv =>
      if now - kv.2.lastActivity > heartbeatTimeout then cleanupClientFiles kv.1 acc
      else acc) s

/-- The token pass of `scheduledCleanup`: drop every token older than
`maxAge` (the loop deletes exactly the expired entries, i.e. keeps the
others). -/
def sweepTokens (now : ℕ) (s : ServerState) : ServerState :=
  { s with downloadTokens :=
      s.downloadTokens.filter (fun kv => !decide (now - kv.2.created > maxAge)) }

/-- The scheduledCleanup function: sweep the uploads, output and temp
trackers (in the order of the JS array literal), then the inactive
clients, then the expired download tokens. -/
def scheduledCleanup (now : ℕ) (s : ServerState) : ServerState :=
  sweepTokens now
    (sweepClients now
      (sweepTrackerPass now "temp"
        (sweepTrackerPass now "output"
          (sweepTrackerPass now "upload" s))))

/-! ### Download endpoint (GET /download/:token) -/

/-- The two 404 bodies and the success of the download endpoint.  A
`sent` result is a completed `res.download` transfer (its callback has
run: the captured tracker record's in-use flag has been cleared again
and the token deleted). -/
inductive DownloadResult where
  | notFound (msg : String)
  | sent (filename downloadName : String)
deriving DecidableEq, Repr

/-- The download endpoint, modelled over a whole completed request:
unknown token → 404 "expired or invalid" (there is no age check);
result file absent from the output directory → 404 "File not found on
server." with nothing consumed; otherwise the transfer runs under
`inUse = true` and the `res.download` callback then clears `inUse` and
deletes the token.  The state returned is the state after the callback. -/
def downloadEndpoint (s : ServerState) (token : String) : DownloadResult × ServerState :=
  match mapGet token s.downloadTokens with
  | none => (.notFound "Download link has expired or is invalid.", s)
  | some data =>
    if data.filename ∈ s.outputDisk then
      (.sent data.filename (data.originalName ++ "-vidsnip-edited.mp4"),
       { s with
          output :=
            match mapGet data.filename s.output with
            | some fd => mapSet data.filename ⟨fd.timestamp, fd.clientId, false⟩ s.output
            | none => s.output,
          downloadTokens := mapDelete token s.downloadTokens })
    else (.notFound "File not found on server.", s)

/-! ### Encode pipeline (POST /process) -/

/-- One encoder invocation of a pipeline run, as observed in the trace:
the cut of segment `i` (with its `-ss`/`-to` offsets) or the final
concatenation. -/
inductive EncEvent where
  | cut (i : ℕ) (start stop : ℚ)
  | concat
deriving DecidableEq, Repr

/-- The response of the process endpoint: an error status with its JSON
`error` string, or 200 with the download token. -/
inductive ProcessResult where
  | err (status : ℕ) (msg : String)
  | ok (downloadToken : String)
deriving DecidableEq, Repr

/-- Name of the i-th temporary segment file
(`temp-${i}-${Date.now()}.mp4`). -/
def tempName (i now : ℕ) : String :=
  "temp-" ++ toString i ++ "-" ++ toString now ++ ".mp4"

/-- Name of the concat list file (`list-${Date.now()}.txt`). -/
def listName (now : ℕ) : String :=
  "list-" ++ toString now ++ ".txt"

/-- Name of the result file (`processed-${Date.now()}.mp4`). -/
def processedName (now : ℕ) : String :=
  "processed-" ++ toString now ++ ".mp4"

/-- A freshly minted download token
(`dl-${Date.now()}-${Math.floor(Math.random()*1e9)}`); the random part
is the parameter `rand`. -/
def dlToken (now rand : ℕ) : String :=
  "dl-" ++ toString now ++ "-" ++ toString rand

/-- Model of `path.parse(name).name`: the base name with the extension
from the last dot removed, unless that dot is the leading character. -/
def parseNameStr (s : String) : String :=
  match s.toList.reverse.findIdx? (fun c => decide (c = '.')) with
  | none => s
  | some r =>
    if 0 < s.toList.length - 1 - r then String.mk (s.toList.take (s.toList.length - 1 - r))
    else s

/-- The display name recorded for the pipeline run:
`clients.get(clientId)?.originalName || "video"`. -/
def origNameOf (clientId : String) (s : ServerState) : String :=
  match mapGet clientId s.clients with
  | some cd =>
    match cd.originalName with
    | some x => if x = "" then "video" else x
    | none => "video"
  | none => "video"

/-- The sequential segment loop of the pipeline: invoke the encoder for
each segment in order (invocation `i` of the oracle); a successful
invocation writes the temp file to disk; a failed one rejects, so the
loop aborts at the first failure.  Returns the trace of invocations,
whether all succeeded, and the state. -/
def cutLoop (oracle : ℕ → Bool) (now : ℕ) :
    ℕ → List Segment → ServerState → List EncEvent × Bool × ServerState
  | _, [], s => ([], true, s)
  | i, seg :: rest, s =>
    if oracle i then
      let r := cutLoop oracle now (i + 1) rest
        { s with tempDisk := s.tempDisk ++ [tempName i now] }
      (EncEvent.cut i seg.start seg.stop :: r.1, r.2)
    else ([EncEvent.cut i seg.start seg.stop], false, s)

/-- The pipeline body of the process endpoint, after validation and the
source-file existence check: track every temp name up front, cut each
segment sequentially, then write and track the list file, run the
concat invocation, delete the temp files, track the result and mint the
one-time token.  Any encoder rejection lands in the catch block:
status 500 with the single opaque message. -/
def processPipeline (now rand : ℕ) (oracle : ℕ → Bool) (clientId : String)
    (segments : List Segment) (s : ServerState) :
    ProcessResult × List EncEvent × ServerState :=
  let origName := origNameOf clientId s
  let s1 := (List.range segments.length).foldl
    (fun acc i => trackFile now (tempName i now) "temp" clientId acc) s
  let r := cutLoop oracle now 0 segments s1
  if r.2.1 then
    let s3 := { r.2.2 with tempDisk := r.2.2.tempDisk ++ [listName now] }
    let s4 := trackFile now (listName now) "temp" clientId s3
    if oracle segments.length then
      let s5 := { s4 with outputDisk := s4.outputDisk ++ [processedName now] }
      let s6 := (List.range segments.length).foldl
        (fun acc i => (deleteFile (tempName i now) "temp" acc).2) s5
      let s7 := (deleteFile (listName now) "temp" s6).2
      let s8 := trackFile now (processedName now) "output" clientId s7
      let tokens9 := mapSet (dlToken now rand)
        (⟨processedName now, now, parseNameStr origName⟩ : TokenData) s8.downloadTokens
      (ProcessResult.ok (dlToken now rand), r.1 ++ [EncEvent.concat],
       { s8 with downloadTokens := tokens9 })
    else
      (ProcessResult.err 500 "Video processing failed", r.1 ++ [EncEvent.concat], s4)
  else
    (ProcessResult.err 500 "Video processing failed", r.1, r.2.2)

/-- The process endpoint: reject a missing filename or an empty segment
array with 400, a source file absent from the uploads directory with
404, and otherwise run the pipeline. -/
def processEndpoint (now rand : ℕ) (oracle : ℕ → Bool) (filename clientId : String)
    (segments : List Segment) (s : ServerState) :
    ProcessResult × List EncEvent × ServerState :=
  if filename = "" ∨ segments.isEmpty then (.err 400 "Invalid request", [], s)
  else if filename ∈ s.uploadsDisk then processPipeline now rand oracle clientId segments s
  else (.err 404 "File not found", [], s)

/-! ### Structural lemmas about the state components -/

theorem getTrackerK_setTrackerK_same (k : TKind) (t : List (String × FileData))
    (s : ServerState) : getTrackerK k (setTrackerK k t s) = t := by
  cases k <;> rfl

theorem getTrackerK_setTrackerK_ne (k k' : TKind) (t : List (String × FileData))
    (s : ServerState) (h : k ≠ k') : getTrackerK k (setTrackerK k' t s) = getTrackerK k s := by
  cases k <;> cases k' <;> first | rfl | exact absurd rfl h

theorem getTrackerK_setDiskK (k k' : TKind) (d : List String) (s : ServerState) :
    getTrackerK k (setDiskK k' d s) = getTrackerK k s := by
  cases k <;> cases k' <;> rfl

theorem getDiskK_setDiskK_same (k : TKind) (d : List String) (s : ServerState) :
    getDiskK k (setDiskK k d s) = d := by
  cases k <;> rfl

theorem getDiskK_setDiskK_ne (k k' : TKind) (d : List String) (s : ServerState)
    (h : k ≠ k') : getDiskK k (setDiskK k' d s) = getDiskK k s := by
  cases k <;> cases k' <;> first | rfl | exact absurd rfl h

theorem getDiskK_setTrackerK (k k' : TKind) (t : List (String × FileData)) (s : ServerState) :
    getDiskK k (setTrackerK k' t s) = getDiskK k s := by
  cases k <;> cases k' <;> rfl

theorem clients_setTrackerK (k : TKind) (t : List (String × FileData)) (s : ServerState) :
    (setTrackerK k t s).clients = s.clients := by
  cases k <;> rfl

theorem clients_setDiskK (k : TKind) (d : List String) (s : ServerState) :
    (setDiskK k d s).clients = s.clients := by
  cases k <;> rfl

theorem tokens_setTrackerK (k : TKind) (t : List (String × FileData)) (s : ServerState) :
    (setTrackerK k t s).downloadTokens = s.downloadTokens := by
  cases k <;> rfl

theorem tokens_setDiskK (k : TKind) (d : List String) (s : ServerState) :
    (setDiskK k d s).downloadTokens = s.downloadTokens := by
  cases k <;> rfl

theorem getTrackerK_clientsUpdate (k : TKind) (s : ServerState)
    (c : List (String × ClientData)) :
    getTrackerK k { s with clients := c } = getTrackerK k s := by
  cases k <;> rfl

theorem getDiskK_clientsUpdate (k : TKind) (s : ServerState)
    (c : List (String × ClientData)) :
    getDiskK k { s with clients := c } = getDiskK k s := by
  cases k <;> rfl

theorem getTrackerK_tokensUpdate (k : TKind) (s : ServerState)
    (t : List (String × TokenData)) :
    getTrackerK k { s with downloadTokens := t } = getTrackerK k s := by
  cases k <;> rfl

theorem getDiskK_tokensUpdate (k : TKind) (s : ServerState)
    (t : List (String × TokenData)) :
    getDiskK k { s with downloadTokens := t } = getDiskK k s := by
  cases k <;> rfl

theorem not_mem_diskRemove_self (fn : String) (l : List String) : fn ∉ diskRemove fn l := by
  induction l with
  | nil => simp [diskRemove]
  | cons x l ih =>
    by_cases hx : x = fn
    · simpa [diskRemove, hx] using ih
    · simp [diskRemove, hx, ih]
      exact fun he => absurd he.symm hx

theorem mem_diskRemove_of_ne (x fn : String) (l : List String) (h : x ≠ fn) :
    x ∈ diskRemove fn l ↔ x ∈ l := by
  induction l with
  | nil => simp [diskRemove]
  | cons y l ih =>
    by_cases hy : y = fn
    · subst hy
      simp [diskRemove, ih, Ne.symm h]
      intro he
      exact absurd he h
    · simp [diskRemove, hy, List.mem_cons, ih]

theorem not_mem_diskRemove_of_not_mem (x fn : String) (l : List String) (h : x ∉ l) :
    x ∉ diskRemove fn l := by
  induction l with
  | nil => simp [diskRemove]
  | cons y l ih =>
    rw [List.mem_cons] at h
    push_neg at h
    by_cases hy : y = fn
    · simpa [diskRemove, hy] using ih h.2
    · simp [diskRemove, hy, List.mem_cons]
      exact ⟨fun he => absurd he.symm (Ne.symm h.1), ih h.2⟩

theorem foldl_preserve {α : Type} {P : ServerState → Prop} (f : ServerState → α → ServerState)
    (h : ∀ s a, P s → P (f s a)) : ∀ (l : List α) (s : ServerState), P s → P (l.foldl f s) := by
  intro l
  induction l with
  | nil => intro s hs; exact hs
  | cons a l ih =>
    intro s hs
    rw [List.foldl_cons]
    exact ih (f s a) (h s a hs)

theorem mapGet_split {α : Type} (k : String) (v : α) :
    ∀ (m : List (String × α)), mapGet k m = some v →
      ∃ L1 L2, m = L1 ++ (k, v) :: L2 ∧ ∀ p ∈ L1, p.1 ≠ k := by
  intro m
  induction m with
  | nil => intro h; simp [mapGet] at h
  | cons p m ih =>
    intro h
    by_cases hp : p.1 = k
    · simp [mapGet, hp] at h
      have hpv : p = (k, v) := Prod.ext hp h
      refine ⟨[], m, ?_, by simp⟩
      rw [hpv]
      simp
    · simp only [mapGet, if_neg hp] at h
      obtain ⟨L1, L2, heq, hkeys⟩ := ih h
      refine ⟨p :: L1, L2, by rw [heq]; rfl, ?_⟩
      intro q hq
      rcases List.mem_cons.mp hq with rfl | hq'
      · exact hp
      · exact hkeys q hq'

/-! ### Behaviour of deleteFile -/

/-- A tracked entry together with its file on disk. -/
def entryDisk (fn0 : String) (k0 : TKind) (d : FileData) (s : ServerState) : Prop :=
  mapGet fn0 (getTrackerK k0 s) = some d ∧ fn0 ∈ getDiskK k0 s

/-- Fully reclaimed: no tracker entry and no file on disk. -/
def goneOf (fn0 : String) (k0 : TKind) (s : ServerState) : Prop :=
  mapGet fn0 (getTrackerK k0 s) = none ∧ fn0 ∉ getDiskK k0 s

/-- Either still fully present or fully reclaimed. -/
def qOf (fn0 : String) (k0 : TKind) (d : FileData) (s : ServerState) : Prop :=
  entryDisk fn0 k0 d s ∨ goneOf fn0 k0 s

theorem deleteFile_cases (fn ft : String) (s : ServerState) :
    (deleteFile fn ft s).2 = s ∨
    ((deleteFile fn ft s).2 =
        setDiskK (tkind ft) (diskRemove fn (getDiskK (tkind ft) s))
          (setTrackerK (tkind ft) (mapDelete fn (getTrackerK (tkind ft) s)) s) ∧
      ((mapGet fn (getTrackerK (tkind ft) s)).map (·.inUse)).getD false = false ∧
      fn ∈ getDiskK (tkind ft) s) := by
  unfold deleteFile
  by_cases h1 : ((mapGet fn (getTrackerK (tkind ft) s)).map (·.inUse)).getD false = true
  · left
    simp [h1]
  · rw [Bool.not_eq_true] at h1
    by_cases h2 : fn ∈ getDiskK (tkind ft) s
    · right
      exact ⟨by simp [h1, h2], h1, h2⟩
    · left
      simp [h1, h2]

theorem deleteFile_clients_eq (fn ft : String) (s : ServerState) :
    (deleteFile fn ft s).2.clients = s.clients := by
  rcases deleteFile_cases fn ft s with h | ⟨h, _, _⟩
  · rw [h]
  · rw [h, clients_setDiskK, clients_setTrackerK]

theorem deleteFile_tokens_eq (fn ft : String) (s : ServerState) :
    (deleteFile fn ft s).2.downloadTokens = s.downloadTokens := by
  rcases deleteFile_cases fn ft s with h | ⟨h, _, _⟩
  · rw [h]
  · rw [h, tokens_setDiskK, tokens_setTrackerK]

theorem deleteFile_keeps_inuse (fn0 : String) (k0 : TKind) (d : FileData) (fn ft : String)
    (s : ServerState) (hd : d.inUse = true)
    (he : mapGet fn0 (getTrackerK k0 s) = some d) :
    mapGet fn0 (getTrackerK k0 (deleteFile fn ft s).2) = some d := by
  rcases deleteFile_cases fn ft s with h | ⟨h, hni, _⟩
  · rw [h]; exact he
  · rw [h, getTrackerK_setDiskK]
    by_cases hk : k0 = tkind ft
    · subst hk
      rw [getTrackerK_setTrackerK_same]
      by_cases hfn : fn0 = fn
      · subst hfn
        rw [he] at hni
        simp [hd] at hni
      · rw [mapGet_mapDelete_other fn0 fn _ hfn]
        exact he
    · rw [getTrackerK_setTrackerK_ne _ _ _ _ hk]
      exact he

theorem deleteFile_keeps_inuse_disk (fn0 : String) (k0 : TKind) (d : FileData)
    (fn ft : String) (s : ServerState) (hd : d.inUse = true)
    (he : mapGet fn0 (getTrackerK k0 s) = some d) (hm : fn0 ∈ getDiskK k0 s) :
    fn0 ∈ getDiskK k0 (deleteFile fn ft s).2 := by
  rcases deleteFile_cases fn ft s with h | ⟨h, hni, _⟩
  · rw [h]; exact hm
  · rw [h]
    by_cases hk : k0 = tkind ft
    · subst hk
      rw [getDiskK_setDiskK_same]
      by_cases hfn : fn0 = fn
      · subst hfn
        rw [he] at hni
        simp [hd] at hni
      · exact (mem_diskRemove_of_ne fn0 fn _ hfn).mpr hm
    · rw [getDiskK_setDiskK_ne _ _ _ _ hk, getDiskK_setTrackerK]
      exact hm

theorem deleteFile_keeps_gone (fn0 : String) (k0 : TKind) (fn ft : String)
    (s : ServerState) (hg : goneOf fn0 k0 s) : goneOf fn0 k0 (deleteFile fn ft s).2 := by
  rcases deleteFile_cases fn ft s with h | ⟨h, _, _⟩
  · rw [goneOf, h]; exact hg
  · rw [goneOf, h, getTrackerK_setDiskK]
    by_cases hk : k0 = tkind ft
    · subst hk
      rw [getTrackerK_setTrackerK_same, getDiskK_setDiskK_same]
      constructor
      · by_cases hfn : fn0 = fn
        · subst hfn; exact mapGet_mapDelete_self fn0 _
        · rw [mapGet_mapDelete_other fn0 fn _ hfn]; exact hg.1
      · exact not_mem_diskRemove_of_not_mem fn0 fn _ hg.2
    · rw [getTrackerK_setTrackerK_ne _ _ _ _ hk, getDiskK_setDiskK_ne _ _ _ _ hk,
        getDiskK_setTrackerK]
      exact ⟨hg.1, hg.2⟩

theorem deleteFile_self_removes (fn ft : String) (d : FileData) (s : ServerState)
    (he : mapGet fn (getTrackerK (tkind ft) s) = some d) (hd : d.inUse = false)
    (hm : fn ∈ getDiskK (tkind ft) s) :
    (deleteFile fn ft s).1 = true ∧ goneOf fn (tkind ft) (deleteFile fn ft s).2 := by
  have hni : ((mapGet fn (getTrackerK (tkind ft) s)).map (·.inUse)).getD false = false := by
    rw [he]; simpa using hd
  unfold deleteFile
  rw [hni]
  simp only [Bool.false_eq_true, if_false, if_pos hm]
  refine ⟨by trivial, ?_, ?_⟩
  · rw [getTrackerK_setDiskK, getTrackerK_setTrackerK_same]
    exact mapGet_mapDelete_self fn _
  · rw [getDiskK_setDiskK_same]
    exact not_mem_diskRemove_self fn _

theorem deleteFile_other_entry (fn0 : String) (k0 : TKind) (fn ft : String)
    (s : ServerState) (h : ¬(fn0 = fn ∧ k0 = tkind ft)) :
    mapGet fn0 (getTrackerK k0 (deleteFile fn ft s).2) = mapGet fn0 (getTrackerK k0 s) ∧
      (fn0 ∈ getDiskK k0 (deleteFile fn ft s).2 ↔ fn0 ∈ getDiskK k0 s) := by
  rcases deleteFile_cases fn ft s with hc | ⟨hc, _, _⟩
  · rw [hc]; exact ⟨rfl, Iff.rfl⟩
  · rw [hc, getTrackerK_setDiskK]
    by_cases hk : k0 = tkind ft
    · subst hk
      have hfn : fn0 ≠ fn := fun hfn => h ⟨hfn, rfl⟩
      rw [getTrackerK_setTrackerK_same, getDiskK_setDiskK_same,
        mapGet_mapDelete_other fn0 fn _ hfn]
      exact ⟨rfl, mem_diskRemove_of_ne fn0 fn _ hfn⟩
    · rw [getTrackerK_setTrackerK_ne _ _ _ _ hk, getDiskK_setDiskK_ne _ _ _ _ hk,
        getDiskK_setTrackerK]
      exact ⟨rfl, Iff.rfl⟩

theorem deleteFile_q (fn0 : String) (k0 : TKind) (d : FileData) (fn ft : String)
    (s : ServerState) (hd : d.inUse = false) (hq : qOf fn0 k0 d s) :
    qOf fn0 k0 d (deleteFile fn ft s).2 := by
  rcases hq with ⟨he, hm⟩ | hg
  · by_cases hself : fn0 = fn ∧ k0 = tkind ft
    · right
      obtain ⟨rfl, rfl⟩ := hself
      exact (deleteFile_self_removes fn0 ft d s he hd hm).2
    · left
      have hother := deleteFile_other_entry fn0 k0 fn ft s hself
      exact ⟨by rw [hother.1]; exact he, hother.2.mpr hm⟩
  · right
    exact deleteFile_keeps_gone fn0 k0 fn ft s hg

theorem deleteFile_self_gone_of_q (fn0 : String) (k0 : TKind) (d : FileData) (ft : String)
    (s : ServerState) (hd : d.inUse = false) (hk : tkind ft = k0) (hq : qOf fn0 k0 d s) :
    goneOf fn0 k0 (deleteFile fn0 ft s).2 := by
  subst hk
  rcases hq with ⟨he, hm⟩ | hg
  · exact (deleteFile_self_removes fn0 ft d s he hd hm).2
  · exact deleteFile_keeps_gone fn0 _ fn0 ft s hg

/-! ### Behaviour of the sweeps -/

theorem sweepTrackerPass_q (now : ℕ) (ft : String) (fn0 : String) (k0 : TKind)
    (d : FileData) (s : ServerState) (hd : d.inUse = false) (hq : qOf fn0 k0 d s) :
    qOf fn0 k0 d (sweepTrackerPass now ft s) := by
  unfold sweepTrackerPass
  refine foldl_preserve _ ?_ _ s hq
  intro s' kv hp
  by_cases hc : kv.2.inUse = false ∧ now - kv.2.timestamp > maxAge
  · rw [if_pos hc]
    exact deleteFile_q fn0 k0 d kv.1 ft s' hd hp
  · rw [if_neg hc]
    exact hp

theorem sweepTrackerPass_gone (now : ℕ) (ft : String) (fn0 : String) (k0 : TKind)
    (s : ServerState) (hg : goneOf fn0 k0 s) : goneOf fn0 k0 (sweepTrackerPass now ft s) := by
  unfold sweepTrackerPass
  refine foldl_preserve _ ?_ _ s hg
  intro s' kv hp
  by_cases hc : kv.2.inUse = false ∧ now - kv.2.timestamp > maxAge
  · rw [if_pos hc]
    exact deleteFile_keeps_gone fn0 k0 kv.1 ft s' hp
  · rw [if_neg hc]
    exact hp

theorem sweepTrackerPass_inuse (now : ℕ) (ft : String) (fn0 : String) (k0 : TKind)
    (d : FileData) (s : ServerState) (hd : d.inUse = true)
    (he : mapGet fn0 (getTrackerK k0 s) = some d) :
    mapGet fn0 (getTrackerK k0 (sweepTrackerPass now ft s)) = some d := by
  unfold sweepTrackerPass
  refine foldl_preserve (P := fun x => mapGet fn0 (getTrackerK k0 x) = some d) _ ?_ _ s he
  intro s' kv hp
  by_cases hc : kv.2.inUse = false ∧ now - kv.2.timestamp > maxAge
  · rw [if_pos hc]
    exact deleteFile_keeps_inuse fn0 k0 d kv.1 ft s' hd hp
  · rw [if_neg hc]
    exact hp

theorem sweepTrackerPass_inuse_disk (now : ℕ) (ft : String) (fn0 : String) (k0 : TKind)
    (d : FileData) (s : ServerState) (hd : d.inUse = true)
    (he : mapGet fn0 (getTrackerK k0 s) = some d) (hm : fn0 ∈ getDiskK k0 s) :
    mapGet fn0 (getTrackerK k0 (sweepTrackerPass now ft s)) = some d ∧
      fn0 ∈ getDiskK k0 (sweepTrackerPass now ft s) := by
  unfold sweepTrackerPass
  refine foldl_preserve
    (P := fun x => mapGet fn0 (getTrackerK k0 x) = some d ∧ fn0 ∈ getDiskK k0 x) _ ?_ _ s ⟨he, hm⟩
  intro s' kv hp
  by_cases hc : kv.2.inUse = false ∧ now - kv.2.timestamp > maxAge
  · rw [if_pos hc]
    exact ⟨deleteFile_keeps_inuse fn0 k0 d kv.1 ft s' hd hp.1,
      deleteFile_keeps_inuse_disk fn0 k0 d kv.1 ft s' hd hp.1 hp.2⟩
  · rw [if_neg hc]
    exact hp

theorem sweepTrackerPass_clients (now : ℕ) (ft : String) (s : ServerState) :
    (sweepTrackerPass now ft s).clients = s.clients := by
  unfold sweepTrackerPass
  refine foldl_preserve (P := fun x => x.clients = s.clients) _ ?_ _ s rfl
  intro s' kv hp
  by_cases hc : kv.2.inUse = false ∧ now - kv.2.timestamp > maxAge
  · rw [if_pos hc, deleteFile_clients_eq]
    exact hp
  · rw [if_neg hc]
    exact hp

theorem sweepTrackerPass_tokens (now : ℕ) (ft : String) (s : ServerState) :
    (sweepTrackerPass now ft s).downloadTokens = s.downloadTokens := by
  unfold sweepTrackerPass
  refine foldl_preserve (P := fun x => x.downloadTokens = s.downloadTokens) _ ?_ _ s rfl
  intro s' kv hp
  by_cases hc : kv.2.inUse = false ∧ now - kv.2.timestamp > maxAge
  · rw [if_pos hc, deleteFile_tokens_eq]
    exact hp
  · rw [if_neg hc]
    exact hp

theorem cleanupClientFiles_q (cid : String) (fn0 : String) (k0 : TKind) (d : FileData)
    (s : ServerState) (hd : d.inUse = false) (hq : qOf fn0 k0 d s) :
    qOf fn0 k0 d (cleanupClientFiles cid s) := by
  unfold cleanupClientFiles
  cases hc : mapGet cid s.clients with
  | none => exact hq
  | some client =>
    have hfold : qOf fn0 k0 d
        (client.files.foldl (fun acc f => (deleteFile f.filename f.ftype acc).2) s) := by
      refine foldl_preserve _ ?_ _ s hq
      intro s' f hp
      exact deleteFile_q fn0 k0 d f.filename f.ftype s' hd hp
    rcases hfold with ⟨he, hm⟩ | hg
    · left
      exact ⟨by rw [getTrackerK_clientsUpdate]; exact he,
        by rw [getDiskK_clientsUpdate]; exact hm⟩
    · right
      exact ⟨by rw [getTrackerK_clientsUpdate]; exact hg.1,
        by rw [getDiskK_clientsUpdate]; exact hg.2⟩

theorem cleanupClientFiles_gone (cid : String) (fn0 : String) (k0 : TKind)
    (s : ServerState) (hg : goneOf fn0 k0 s) : goneOf fn0 k0 (cleanupClientFiles cid s) := by
  unfold cleanupClientFiles
  cases hc : mapGet cid s.clients with
  | none => exact hg
  | some client =>
    have hfold : goneOf fn0 k0
        (client.files.foldl (fun acc f => (deleteFile f.filename f.ftype acc).2) s) := by
      refine foldl_preserve _ ?_ _ s hg
      intro s' f hp
      exact deleteFile_keeps_gone fn0 k0 f.filename f.ftype s' hp
    exact ⟨by rw [getTrackerK_clientsUpdate]; exact hfold.1,
      by rw [getDiskK_clientsUpdate]; exact hfold.2⟩

theorem cleanupClientFiles_inuse (cid : String) (fn0 : String) (k0 : TKind) (d : FileData)
    (s : ServerState) (hd : d.inUse = true)
    (he : mapGet fn0 (getTrackerK k0 s) = some d) :
    mapGet fn0 (getTrackerK k0 (cleanupClientFiles cid s)) = some d := by
  unfold cleanupClientFiles
  cases hc : mapGet cid s.clients with
  | none => exact he
  | some client =>
    have hfold : mapGet fn0 (getTrackerK k0
        (client.files.foldl (fun acc f => (deleteFile f.filename f.ftype acc).2) s)) = some d := by
      refine foldl_preserve (P := fun x => mapGet fn0 (getTrackerK k0 x) = some d) _ ?_ _ s he
      intro s' f hp
      exact deleteFile_keeps_inuse fn0 k0 d f.filename f.ftype s' hd hp
    rw [getTrackerK_clientsUpdate]
    exact hfold

theorem cleanupClientFiles_inuse_disk (cid : String) (fn0 : String) (k0 : TKind)
    (d : FileData) (s : ServerState) (hd : d.inUse = true)
    (he : mapGet fn0 (getTrackerK k0 s) = some d) (hm : fn0 ∈ getDiskK k0 s) :
    mapGet fn0 (getTrackerK k0 (cleanupClientFiles cid s)) = some d ∧
      fn0 ∈ getDiskK k0 (cleanupClientFiles cid s) := by
  unfold cleanupClientFiles
  cases hc : mapGet cid s.clients with
  | none => exact ⟨he, hm⟩
  | some client =>
    have hfold := foldl_preserve
      (P := fun x => mapGet fn0 (getTrackerK k0 x) = some d ∧ fn0 ∈ getDiskK k0 x)
      (fun acc f => (deleteFile f.filename f.ftype acc).2) ?_ client.files s ⟨he, hm⟩
    · rw [getTrackerK_clientsUpdate, getDiskK_clientsUpdate]
      exact hfold
    · intro s' f hp
      exact ⟨deleteFile_keeps_inuse fn0 k0 d f.filename f.ftype s' hd hp.1,
        deleteFile_keeps_inuse_disk fn0 k0 d f.filename f.ftype s' hd hp.1 hp.2⟩

theorem cleanupClientFiles_tokens (cid : String) (s : ServerState) :
    (cleanupClientFiles cid s).downloadTokens = s.downloadTokens := by
  unfold cleanupClientFiles
  cases hc : mapGet cid s.clients with
  | none => rfl
  | some client =>
    have hfold := foldl_preserve (P := fun x => x.downloadTokens = s.downloadTokens)
      (fun acc f => (deleteFile f.filename f.ftype acc).2) ?_ client.files s rfl
    · exact hfold
    · intro s' f hp
      rw [deleteFile_tokens_eq]
      exact hp

theorem cleanupClientFiles_foldl_clients (files : List FileRef) (s : ServerState) :
    (files.foldl (fun acc f => (deleteFile f.filename f.ftype acc).2) s).clients
      = s.clients := by
  refine foldl_preserve (P := fun x => x.clients = s.clients) _ ?_ _ s rfl
  intro s' f hp
  rw [deleteFile_clients_eq]
  exact hp

theorem cleanupClientFiles_clients_self (cid : String) (cd : ClientData) (s : ServerState)
    (hc : mapGet cid s.clients = some cd) :
    mapGet cid (cleanupClientFiles cid s).clients = none := by
  unfold cleanupClientFiles
  rw [hc]
  exact mapGet_mapDelete_self cid _

theorem cleanupClientFiles_clients_other (cid cid' : String) (s : ServerState)
    (h : cid' ≠ cid) :
    mapGet cid' (cleanupClientFiles cid s).clients = mapGet cid' s.clients := by
  unfold cleanupClientFiles
  cases hc : mapGet cid s.clients with
  | none => rfl
  | some client =>
    show mapGet cid' (mapDelete cid _) = _
    rw [mapGet_mapDelete_other cid' cid _ h, cleanupClientFiles_foldl_clients]

theorem cleanupClientFiles_clients_none (cid cid' : String) (s : ServerState)
    (h : mapGet cid s.clients = none) :
    mapGet cid (cleanupClientFiles cid' s).clients = none := by
  by_cases he : cid' = cid
  · subst he
    unfold cleanupClientFiles
    rw [h]
    exact h
  · rw [cleanupClientFiles_clients_other cid' cid s (fun hh => he hh.symm)]
    exact h

theorem sweepClients_q (now : ℕ) (fn0 : String) (k0 : TKind) (d : FileData)
    (s : ServerState) (hd : d.inUse = false) (hq : qOf fn0 k0 d s) :
    qOf fn0 k0 d (sweepClients now s) := by
  unfold sweepClients
  refine foldl_preserve _ ?_ _ s hq
  intro s' kv hp
  by_cases hc : now - kv.2.lastActivity > heartbeatTimeout
  · rw [if_pos hc]
    exact cleanupClientFiles_q kv.1 fn0 k0 d s' hd hp
  · rw [if_neg hc]
    exact hp

theorem sweepClients_gone (now : ℕ) (fn0 : String) (k0 : TKind) (s : ServerState)
    (hg : goneOf fn0 k0 s) : goneOf fn0 k0 (sweepClients now s) := by
  unfold sweepClients
  refine foldl_preserve _ ?_ _ s hg
  intro s' kv hp
  by_cases hc : now - kv.2.lastActivity > heartbeatTimeout
  · rw [if_pos hc]
    exact cleanupClientFiles_gone kv.1 fn0 k0 s' hp
  · rw [if_neg hc]
    exact hp

theorem sweepClients_inuse (now : ℕ) (fn0 : String) (k0 : TKind) (d : FileData)
    (s : ServerState) (hd : d.inUse = true)
    (he : mapGet fn0 (getTrackerK k0 s) = some d) :
    mapGet fn0 (getTrackerK k0 (sweepClients now s)) = some d := by
  unfold sweepClients
  refine foldl_preserve (P := fun x => mapGet fn0 (getTrackerK k0 x) = some d) _ ?_ _ s he
  intro s' kv hp
  by_cases hc : now - kv.2.lastActivity > heartbeatTimeout
  · rw [if_pos hc]
    exact cleanupClientFiles_inuse kv.1 fn0 k0 d s' hd hp
  · rw [if_neg hc]
    exact hp

theorem sweepClients_inuse_disk (now : ℕ) (fn0 : String) (k0 : TKind) (d : FileData)
    (s : ServerState) (hd : d.inUse = true)
    (he : mapGet fn0 (getTrackerK k0 s) = some d) (hm : fn0 ∈ getDiskK k0 s) :
    mapGet fn0 (getTrackerK k0 (sweepClients now s)) = some d ∧
      fn0 ∈ getDiskK k0 (sweepClients now s) := by
  unfold sweepClients
  refine foldl_preserve
    (P := fun x => mapGet fn0 (getTrackerK k0 x) = some d ∧ fn0 ∈ getDiskK k0 x)
    _ ?_ _ s ⟨he, hm⟩
  intro s' kv hp
  by_cases hc : now - kv.2.lastActivity > heartbeatTimeout
  · rw [if_pos hc]
    exact cleanupClientFiles_inuse_disk kv.1 fn0 k0 d s' hd hp.1 hp.2
  · rw [if_neg hc]
    exact hp

theorem sweepTokens_getTrackerK (now : ℕ) (k : TKind) (s : ServerState) :
    getTrackerK k (sweepTokens now s) = getTrackerK k s := by
  cases k <;> rfl

theorem sweepTokens_getDiskK (now : ℕ) (k : TKind) (s : ServerState) :
    getDiskK k (sweepTokens now s) = getDiskK k s := by
  cases k <;> rfl

theorem sweepTokens_clients (now : ℕ) (s : ServerState) :
    (sweepTokens now s).clients = s.clients := rfl

theorem foldl_preserve_mem {α : Type} {P : ServerState → Prop}
    (f : ServerState → α → ServerState) :
    ∀ (l : List α), (∀ s a, a ∈ l → P s → P (f s a)) →
      ∀ (s : ServerState), P s → P (l.foldl f s) := by
  intro l
  induction l with
  | nil => intro _ s hs; exact hs
  | cons a l ih =>
    intro h s hs
    rw [List.foldl_cons]
    exact ih (fun s' b hb hp => h s' b (List.mem_cons_of_mem a hb) hp) (f s a)
      (h s a (List.mem_cons_self a l) hs)

/-- A fold that passes through a distinguished element `a` which turns
the two-state invariant `qOf` into `goneOf`, with `qOf` preserved
before it and `goneOf` preserved after it. -/
theorem foldl_reach_gone {α : Type} (fn0 : String) (k0 : TKind) (d : FileData)
    (f : ServerState → α → ServerState) (L1 L2 : List α) (a : α) (s : ServerState)
    (hpre : ∀ (s' : ServerState) (x : α), qOf fn0 k0 d s' → qOf fn0 k0 d (f s' x))
    (hmid : ∀ s' : ServerState, qOf fn0 k0 d s' → goneOf fn0 k0 (f s' a))
    (hpost : ∀ (s' : ServerState) (x : α), goneOf fn0 k0 s' → goneOf fn0 k0 (f s' x))
    (hq : qOf fn0 k0 d s) :
    goneOf fn0 k0 (List.foldl f s (L1 ++ a :: L2)) := by
  rw [List.foldl_append, List.foldl_cons]
  exact foldl_preserve f hpost L2 _
    (hmid _ (foldl_preserve f hpre L1 s hq))

theorem sweepTrackerPass_gone_of_old (now : ℕ) (ft : String) (fn0 : String) (k0 : TKind)
    (d : FileData) (s : ServerState) (hkind : tkind ft = k0) (hd : d.inUse = false)
    (hage : now - d.timestamp > maxAge) (hq : qOf fn0 k0 d s) :
    goneOf fn0 k0 (sweepTrackerPass now ft s) := by
  rcases hq with ⟨he, hm⟩ | hg
  case inr => exact sweepTrackerPass_gone now ft fn0 k0 s hg
  have hmem : (fn0, d) ∈ getTracker ft s := by
    rw [getTracker, hkind]
    exact mapGet_mem fn0 d _ he
  obtain ⟨L1, L2, hL⟩ := List.append_of_mem hmem
  unfold sweepTrackerPass
  rw [hL]
  refine foldl_reach_gone fn0 k0 d _ L1 L2 (fn0, d) s ?_ ?_ ?_ (Or.inl ⟨he, hm⟩)
  · intro s' kv hp
    by_cases hc : kv.2.inUse = false ∧ now - kv.2.timestamp > maxAge
    · rw [if_pos hc]
      exact deleteFile_q fn0 k0 d kv.1 ft s' hd hp
    · rw [if_neg hc]
      exact hp
  · intro s' hp
    show goneOf fn0 k0
      (if d.inUse = false ∧ now - d.timestamp > maxAge then (deleteFile fn0 ft s').2 else s')
    rw [if_pos ⟨hd, hage⟩]
    exact deleteFile_self_gone_of_q fn0 k0 d ft s' hd hkind hp
  · intro s' kv hp
    by_cases hc : kv.2.inUse = false ∧ now - kv.2.timestamp > maxAge
    · rw [if_pos hc]
      exact deleteFile_keeps_gone fn0 k0 kv.1 ft s' hp
    · rw [if_neg hc]
      exact hp

theorem cleanupClientFiles_file_gone (cid : String) (cd : ClientData) (f : FileRef)
    (d : FileData) (s : ServerState) (hc : mapGet cid s.clients = some cd)
    (hf : f ∈ cd.files) (hd : d.inUse = false)
    (hq : qOf f.filename (tkind f.ftype) d s) :
    goneOf f.filename (tkind f.ftype) (cleanupClientFiles cid s) := by
  unfold cleanupClientFiles
  rw [hc]
  obtain ⟨F1, F2, hsplit⟩ := List.append_of_mem hf
  have hgone1 : goneOf f.filename (tkind f.ftype)
      (cd.files.foldl (fun acc g => (deleteFile g.filename g.ftype acc).2) s) := by
    rw [hsplit]
    refine foldl_reach_gone f.filename (tkind f.ftype) d _ F1 F2 f s ?_ ?_ ?_ hq
    · intro s' g hp
      exact deleteFile_q _ _ d g.filename g.ftype s' hd hp
    · intro s' hp
      exact deleteFile_self_gone_of_q f.filename (tkind f.ftype) d f.ftype s' hd rfl hp
    · intro s' g hp
      exact deleteFile_keeps_gone _ _ g.filename g.ftype s' hp
  exact ⟨by rw [getTrackerK_clientsUpdate]; exact hgone1.1,
    by rw [getDiskK_clientsUpdate]; exact hgone1.2⟩

theorem sweepClients_tokens (now : ℕ) (s : ServerState) :
    (sweepClients now s).downloadTokens = s.downloadTokens := by
  unfold sweepClients
  refine foldl_preserve (P := fun x => x.downloadTokens = s.downloadTokens) _ ?_ _ s rfl
  intro s' kv hp
  by_cases hc : now - kv.2.lastActivity > heartbeatTimeout
  · rw [if_pos hc, cleanupClientFiles_tokens]
    exact hp
  · rw [if_neg hc]
    exact hp

theorem sweepClients_removes_client (now : ℕ) (cid : String) (cd : ClientData)
    (s : ServerState) (hcd : mapGet cid s.clients = some cd)
    (hold : now - cd.lastActivity > heartbeatTimeout) :
    mapGet cid (sweepClients now s).clients = none := by
  obtain ⟨L1, L2, hL, hkeys⟩ := mapGet_split cid cd s.clients hcd
  unfold sweepClients
  rw [hL, List.foldl_append, List.foldl_cons]
  have h1 : mapGet cid (List.foldl
      (fun acc kv => if now - kv.2.lastActivity > heartbeatTimeout
        then cleanupClientFiles kv.1 acc else acc) s L1).clients = some cd := by
    refine foldl_preserve_mem (P := fun x => mapGet cid x.clients = some cd) _ L1 ?_ s hcd
    intro s' kv hkv hp
    by_cases hc : now - kv.2.lastActivity > heartbeatTimeout
    · rw [if_pos hc, cleanupClientFiles_clients_other kv.1 cid s' (Ne.symm (hkeys kv hkv))]
      exact hp
    · rw [if_neg hc]
      exact hp
  have h2 : mapGet cid (cleanupClientFiles cid (List.foldl
      (fun acc kv => if now - kv.2.lastActivity > heartbeatTimeout
        then cleanupClientFiles kv.1 acc else acc) s L1)).clients = none :=
    cleanupClientFiles_clients_self cid cd _ h1
  have hstep : mapGet cid ((fun acc (kv : String × ClientData) =>
      if now - kv.2.lastActivity > heartbeatTimeout then cleanupClientFiles kv.1 acc else acc)
        (List.foldl (fun acc kv => if now - kv.2.lastActivity > heartbeatTimeout
          then cleanupClientFiles kv.1 acc else acc) s L1) (cid, cd)).clients = none := by
    show mapGet cid (if now - cd.lastActivity > heartbeatTimeout
      then cleanupClientFiles cid _ else _).clients = none
    rw [if_pos hold]
    exact h2
  refine foldl_preserve (P := fun x => mapGet cid x.clients = none) _ ?_ L2 _ hstep
  intro s' kv hp
  by_cases hc : now - kv.2.lastActivity > heartbeatTimeout
  · rw [if_pos hc]
    exact cleanupClientFiles_clients_none cid kv.1 s' hp
  · rw [if_neg hc]
    exact hp

theorem sweepClients_file_gone (now : ℕ) (cid : String) (cd : ClientData) (f : FileRef)
    (d : FileData) (s : ServerState) (hcd : mapGet cid s.clients = some cd)
    (hold : now - cd.lastActivity > heartbeatTimeout) (hf : f ∈ cd.files)
    (hd : d.inUse = false) (hq : qOf f.filename (tkind f.ftype) d s) :
    goneOf f.filename (tkind f.ftype) (sweepClients now s) := by
  obtain ⟨L1, L2, hL, hkeys⟩ := mapGet_split cid cd s.clients hcd
  unfold sweepClients
  rw [hL, List.foldl_append, List.foldl_cons]
  have h1 : mapGet cid (List.foldl
      (fun acc kv => if now - kv.2.lastActivity > heartbeatTimeout
        then cleanupClientFiles kv.1 acc else acc) s L1).clients = some cd
      ∧ qOf f.filename (tkind f.ftype) d (List.foldl
        (fun acc kv => if now - kv.2.lastActivity > heartbeatTimeout
          then cleanupClientFiles kv.1 acc else acc) s L1) := by
    refine foldl_preserve_mem
      (P := fun x => mapGet cid x.clients = some cd ∧ qOf f.filename (tkind f.ftype) d x)
      _ L1 ?_ s ⟨hcd, hq⟩
    intro s' kv hkv hp
    by_cases hc : now - kv.2.lastActivity > heartbeatTimeout
    · rw [if_pos hc]
      exact ⟨by
          rw [cleanupClientFiles_clients_other kv.1 cid s' (Ne.symm (hkeys kv hkv))]
          exact hp.1,
        cleanupClientFiles_q kv.1 _ _ d s' hd hp.2⟩
    · rw [if_neg hc]
      exact hp
  have h2 : goneOf f.filename (tkind f.ftype) ((fun acc (kv : String × ClientData) =>
      if now - kv.2.lastActivity > heartbeatTimeout then cleanupClientFiles kv.1 acc else acc)
        (List.foldl (fun acc kv => if now - kv.2.lastActivity > heartbeatTimeout
          then cleanupClientFiles kv.1 acc else acc) s L1) (cid, cd)) := by
    show goneOf f.filename (tkind f.ftype) (if now - cd.lastActivity > heartbeatTimeout
      then cleanupClientFiles cid _ else _)
    rw [if_pos hold]
    exact cleanupClientFiles_file_gone cid cd f d _ h1.1 hf hd h1.2
  refine foldl_preserve (P := fun x => goneOf f.filename (tkind f.ftype) x) _ ?_ L2 _ h2
  intro s' kv hp
  by_cases hc : now - kv.2.lastActivity > heartbeatTimeout
  · rw [if_pos hc]
    exact cleanupClientFiles_gone kv.1 _ _ s' hp
  · rw [if_neg hc]
    exact hp

/-! ### scheduledCleanup as a whole -/

theorem scheduledCleanup_inuse (now : ℕ) (fn0 : String) (k0 : TKind) (d : FileData)
    (s : ServerState) (hd : d.inUse = true)
    (he : mapGet fn0 (getTrackerK k0 s) = some d) :
    mapGet fn0 (getTrackerK k0 (scheduledCleanup now s)) = some d := by
  unfold scheduledCleanup
  rw [sweepTokens_getTrackerK]
  exact sweepClients_inuse now fn0 k0 d _ hd
    (sweepTrackerPass_inuse now "temp" fn0 k0 d _ hd
      (sweepTrackerPass_inuse now "output" fn0 k0 d _ hd
        (sweepTrackerPass_inuse now "upload" fn0 k0 d _ hd he)))

theorem scheduledCleanup_inuse_disk (now : ℕ) (fn0 : String) (k0 : TKind) (d : FileData)
    (s : ServerState) (hd : d.inUse = true)
    (he : mapGet fn0 (getTrackerK k0 s) = some d) (hm : fn0 ∈ getDiskK k0 s) :
    mapGet fn0 (getTrackerK k0 (scheduledCleanup now s)) = some d ∧
      fn0 ∈ getDiskK k0 (scheduledCleanup now s) := by
  unfold scheduledCleanup
  have h1 := sweepTrackerPass_inuse_disk now "upload" fn0 k0 d s hd he hm
  have h2 := sweepTrackerPass_inuse_disk now "output" fn0 k0 d _ hd h1.1 h1.2
  have h3 := sweepTrackerPass_inuse_disk now "temp" fn0 k0 d _ hd h2.1 h2.2
  have h4 := sweepClients_inuse_disk now fn0 k0 d _ hd h3.1 h3.2
  exact ⟨by rw [sweepTokens_getTrackerK]; exact h4.1,
    by rw [sweepTokens_getDiskK]; exact h4.2⟩

theorem scheduledCleanup_gone_of_old (now : ℕ) (fn0 : String) (k0 : TKind) (d : FileData)
    (s : ServerState) (hd : d.inUse = false) (hage : now - d.timestamp > maxAge)
    (hq : qOf fn0 k0 d s) : goneOf fn0 k0 (scheduledCleanup now s) := by
  unfold scheduledCleanup
  have hend : ∀ (x : ServerState), goneOf fn0 k0 x →
      goneOf fn0 k0 (sweepTokens now (sweepClients now x)) := by
    intro x hx
    have h := sweepClients_gone now fn0 k0 x hx
    exact ⟨by rw [sweepTokens_getTrackerK]; exact h.1,
      by rw [sweepTokens_getDiskK]; exact h.2⟩
  cases k0 with
  | up =>
    have h1 := sweepTrackerPass_gone_of_old now "upload" fn0 .up d s (by decide) hd hage hq
    exact hend _ (sweepTrackerPass_gone now "temp" _ _ _
      (sweepTrackerPass_gone now "output" _ _ _ h1))
  | out =>
    have h1 := sweepTrackerPass_q now "upload" fn0 .out d s hd hq
    have h2 := sweepTrackerPass_gone_of_old now "output" fn0 .out d _ (by decide) hd hage h1
    exact hend _ (sweepTrackerPass_gone now "temp" _ _ _ h2)
  | tmp =>
    have h1 := sweepTrackerPass_q now "upload" fn0 .tmp d s hd hq
    have h2 := sweepTrackerPass_q now "output" fn0 .tmp d _ hd h1
    have h3 := sweepTrackerPass_gone_of_old now "temp" fn0 .tmp d _ (by decide) hd hage h2
    exact hend _ h3

theorem scheduledCleanup_client_gone (now : ℕ) (cid : String) (cd : ClientData)
    (s : ServerState) (hcd : mapGet cid s.clients = some cd)
    (hold : now - cd.lastActivity > heartbeatTimeout) :
    mapGet cid (scheduledCleanup now s).clients = none := by
  unfold scheduledCleanup
  rw [sweepTokens_clients]
  have hcl : (sweepTrackerPass now "temp" (sweepTrackerPass now "output"
      (sweepTrackerPass now "upload" s))).clients = s.clients := by
    rw [sweepTrackerPass_clients, sweepTrackerPass_clients, sweepTrackerPass_clients]
  exact sweepClients_removes_client now cid cd _ (by rw [hcl]; exact hcd) hold

theorem scheduledCleanup_client_file_gone (now : ℕ) (cid : String) (cd : ClientData)
    (f : FileRef) (d : FileData) (s : ServerState)
    (hcd : mapGet cid s.clients = some cd)
    (hold : now - cd.lastActivity > heartbeatTimeout) (hf : f ∈ cd.files)
    (hd : d.inUse = false)
    (he : mapGet f.filename (getTrackerK (tkind f.ftype) s) = some d)
    (hm : f.filename ∈ getDiskK (tkind f.ftype) s) :
    goneOf f.filename (tkind f.ftype) (scheduledCleanup now s) := by
  unfold scheduledCleanup
  have hq1 : qOf f.filename (tkind f.ftype) d
      (sweepTrackerPass now "temp" (sweepTrackerPass now "output"
        (sweepTrackerPass now "upload" s))) :=
    sweepTrackerPass_q now "temp" _ _ d _ hd
      (sweepTrackerPass_q now "output" _ _ d _ hd
        (sweepTrackerPass_q now "upload" _ _ d _ hd (Or.inl ⟨he, hm⟩)))
  have hcl : (sweepTrackerPass now "temp" (sweepTrackerPass now "output"
      (sweepTrackerPass now "upload" s))).clients = s.clients := by
    rw [sweepTrackerPass_clients, sweepTrackerPass_clients, sweepTrackerPass_clients]
  have hg := sweepClients_file_gone now cid cd f d _ (by rw [hcl]; exact hcd) hold hf hd hq1
  exact ⟨by rw [sweepTokens_getTrackerK]; exact hg.1,
    by rw [sweepTokens_getDiskK]; exact hg.2⟩

theorem scheduledCleanup_tokens (now : ℕ) (s : ServerState) :
    (scheduledCleanup now s).downloadTokens =
      s.downloadTokens.filter (fun kv => !decide (now - kv.2.created > maxAge)) := by
  unfold scheduledCleanup
  show (sweepClients now _).downloadTokens.filter _ = _
  rw [sweepClients_tokens, sweepTrackerPass_tokens, sweepTrackerPass_tokens,
    sweepTrackerPass_tokens]

/-! ### Behaviour of trackFile -/

theorem tokens_clientsUpdate (s : ServerState) (c : List (String × ClientData)) :
    ServerState.downloadTokens { s with clients := c } = s.downloadTokens := rfl

theorem trackFile_tracker_same (now : ℕ) (fn ft cid : String) (s : ServerState)
    (k : TKind) (h : tkind ft = k) :
    getTrackerK k (trackFile now fn ft cid s) =
      mapSet fn ⟨now, cid, false⟩ (getTrackerK k s) := by
  subst h
  simp only [trackFile]
  rw [getTrackerK_clientsUpdate, getTrackerK_setTrackerK_same]

theorem trackFile_tracker_ne (now : ℕ) (fn ft cid : String) (s : ServerState)
    (k : TKind) (h : tkind ft ≠ k) :
    getTrackerK k (trackFile now fn ft cid s) = getTrackerK k s := by
  simp only [trackFile]
  rw [getTrackerK_clientsUpdate, getTrackerK_setTrackerK_ne _ _ _ _ (Ne.symm h)]

theorem trackFile_disk (now : ℕ) (fn ft cid : String) (s : ServerState) (k : TKind) :
    getDiskK k (trackFile now fn ft cid s) = getDiskK k s := by
  simp only [trackFile]
  rw [getDiskK_clientsUpdate, getDiskK_setTrackerK]

theorem trackFile_tokens (now : ℕ) (fn ft cid : String) (s : ServerState) :
    (trackFile now fn ft cid s).downloadTokens = s.downloadTokens := by
  simp only [trackFile]
  rw [tokens_clientsUpdate, tokens_setTrackerK]

/-- The client record produced by one trackFile call for its session. -/
def trackClientData (now : ℕ) (fn ft cid : String) (s : ServerState) : ClientData :=
  match mapGet cid s.clients with
  | some cd => { cd with files := cd.files ++ [⟨fn, ft⟩], lastActivity := now }
  | none => ⟨now, [⟨fn, ft⟩], none⟩

theorem trackFile_clients_self (now : ℕ) (fn ft cid : String) (s : ServerState) :
    mapGet cid (trackFile now fn ft cid s).clients =
      some (trackClientData now fn ft cid s) := by
  simp only [trackFile, clients_setTrackerK]
  cases hc : mapGet cid s.clients with
  | some cd =>
    simp only [Option.isSome_some, if_true]
    rw [hc]
    simp only [Option.getD_some]
    rw [mapGet_mapSet_self]
    unfold trackClientData
    rw [hc]
  | none =>
    simp only [Option.isSome_none, Bool.false_eq_true, if_false]
    rw [mapGet_mapSet_self]
    unfold trackClientData
    rw [hc]
    simp [mapGet_mapSet_self]

theorem trackClientData_lastActivity (now : ℕ) (fn ft cid : String) (s : ServerState) :
    (trackClientData now fn ft cid s).lastActivity = now := by
  unfold trackClientData
  cases mapGet cid s.clients <;> rfl

theorem mapHasKey_of_get {α : Type} (k : String) (v : α) (m : List (String × α))
    (h : mapGet k m = some v) : mapHasKey k m = true := by
  by_cases hh : mapHasKey k m
  · exact hh
  · rw [mapHasKey_false_get k m (Bool.eq_false_iff.mpr hh)] at h
    cases h

theorem mapHasKey_false_keys {α : Type} (k : String) (m : List (String × α))
    (h : mapHasKey k m = false) : ∀ p ∈ m, p.1 ≠ k := by
  intro p hp
  unfold mapHasKey at h
  rw [List.any_eq_false] at h
  simpa using h p hp

theorem mapReplace_keys_val {α : Type} (k : String) (v : α) :
    ∀ (m : List (String × α)) (p : String × α), p ∈ mapReplace k v m → p.1 = k → p.2 = v := by
  intro m
  induction m with
  | nil => intro p hp; simp [mapReplace] at hp
  | cons q m ih =>
    intro p hp hk
    by_cases hq : q.1 = k
    · rw [mapReplace, if_pos hq] at hp
      rcases List.mem_cons.mp hp with rfl | hp'
      · rfl
      · exact ih p hp' hk
    · rw [mapReplace, if_neg hq] at hp
      rcases List.mem_cons.mp hp with rfl | hp'
      · exact absurd hk hq
      · exact ih p hp' hk

theorem mapSet_keys_val {α : Type} (k : String) (v : α) (m : List (String × α)) :
    ∀ p ∈ mapSet k v m, p.1 = k → p.2 = v := by
  intro p hp hk
  unfold mapSet at hp
  by_cases hh : mapHasKey k m
  · rw [if_pos hh] at hp
    exact mapReplace_keys_val k v m p hp hk
  · rw [if_neg hh] at hp
    rcases List.mem_append.mp hp with hp' | hp'
    · exact absurd hk (mapHasKey_false_keys k m (Bool.eq_false_iff.mpr hh) p hp')
    · rw [List.mem_singleton] at hp'
      rw [hp']
  
theorem mapReplace_id {α : Type} (k : String) (v : α) :
    ∀ (m : List (String × α)), (∀ p ∈ m, p.1 = k → p.2 = v) → mapReplace k v m = m := by
  intro m
  induction m with
  | nil => intro _; rfl
  | cons q m ih =>
    intro h
    by_cases hq : q.1 = k
    · have hv : q.2 = v := h q (List.mem_cons_self q m) hq
      have hqe : q = (k, v) := Prod.ext hq hv
      rw [mapReplace, if_pos hq, ih (fun p hp hk => h p (List.mem_cons_of_mem q hp) hk), hqe]
    · rw [mapReplace, if_neg hq, ih (fun p hp hk => h p (List.mem_cons_of_mem q hp) hk)]

theorem mapSet_idem {α : Type} (k : String) (v : α) (m : List (String × α)) :
    mapSet k v (mapSet k v m) = mapSet k v m := by
  have hh : mapHasKey k (mapSet k v m) = true :=
    mapHasKey_of_get k v _ (mapGet_mapSet_self k v m)
  have heq : mapSet k v (mapSet k v m) =
      if mapHasKey k (mapSet k v m) = true then mapReplace k v (mapSet k v m)
      else (mapSet k v m) ++ [(k, v)] := rfl
  rw [heq, if_pos hh]
  exact mapReplace_id k v _ (mapSet_keys_val k v m)

/-! ### Lookup in a filtered map (token expiry) -/

theorem mapGet_eq_none_of_keys {α : Type} (k : String) :
    ∀ (m : List (String × α)), (∀ q ∈ m, q.1 ≠ k) → mapGet k m = none := by
  intro m
  induction m with
  | nil => intro _; rfl
  | cons q m ih =>
    intro h
    rw [mapGet, if_neg (h q (List.mem_cons_self q m))]
    exact ih (fun r hr => h r (List.mem_cons_of_mem q hr))

theorem mapGet_filter_none {α : Type} (k : String) (v : α) (p : String × α → Bool) :
    ∀ (m : List (String × α)), (m.map Prod.fst).Nodup → mapGet k m = some v →
      p (k, v) = false → mapGet k (m.filter p) = none := by
  intro m
  induction m with
  | nil => intro _ hv _; simp [mapGet] at hv
  | cons q m ih =>
    intro hnd hv hp
    rw [List.map_cons, List.nodup_cons] at hnd
    by_cases hq : q.1 = k
    · simp only [mapGet, if_pos hq] at hv
      have hqv : q = (k, v) := Prod.ext hq (by injection hv)
      rw [List.filter_cons, hqv]
      rw [hp]
      simp only [Bool.false_eq_true, if_false]
      refine mapGet_eq_none_of_keys k _ ?_
      intro r hr
      have hrm : r ∈ m := List.mem_of_mem_filter hr
      intro hrk
      apply hnd.1
      have hmem : r.1 ∈ List.map Prod.fst m := List.mem_map_of_mem Prod.fst hrm
      rw [hrk] at hmem
      rw [hq]
      exact hmem
    · simp only [mapGet, if_neg hq] at hv
      rw [List.filter_cons]
      by_cases hpq : p q = true
      · rw [hpq]
        simp only [if_true]
        rw [mapGet, if_neg hq]
        exact ih hnd.2 hv hp
      · rw [Bool.not_eq_true] at hpq
        rw [hpq]
        simp only [Bool.false_eq_true, if_false]
        exact ih hnd.2 hv hp

/-! ### Behaviour of the pipeline -/

theorem getTrackerK_tempDiskUpdate (k : TKind) (s : ServerState) (d : List String) :
    getTrackerK k { s with tempDisk := d } = getTrackerK k s := by
  cases k <;> rfl

theorem getTrackerK_outputDiskUpdate (k : TKind) (s : ServerState) (d : List String) :
    getTrackerK k { s with outputDisk := d } = getTrackerK k s := by
  cases k <;> rfl

theorem cutLoop_tokens (oracle : ℕ → Bool) (now : ℕ) :
    ∀ (segs : List Segment) (i : ℕ) (s : ServerState),
      (cutLoop oracle now i segs s).2.2.downloadTokens = s.downloadTokens := by
  intro segs
  induction segs with
  | nil => intro i s; rfl
  | cons seg rest ih =>
    intro i s
    by_cases hi : oracle i = true
    · simp only [cutLoop, hi, if_true]
      exact ih (i + 1) _
    · rw [Bool.not_eq_true] at hi
      simp only [cutLoop, hi, Bool.false_eq_true, if_false]

theorem cutLoop_trackerK (oracle : ℕ → Bool) (now : ℕ) (k : TKind) :
    ∀ (segs : List Segment) (i : ℕ) (s : ServerState),
      getTrackerK k (cutLoop oracle now i segs s).2.2 = getTrackerK k s := by
  intro segs
  induction segs with
  | nil => intro i s; rfl
  | cons seg rest ih =>
    intro i s
    by_cases hi : oracle i = true
    · simp only [cutLoop, hi, if_true]
      rw [ih (i + 1) _, getTrackerK_tempDiskUpdate]
    · rw [Bool.not_eq_true] at hi
      simp only [cutLoop, hi, Bool.false_eq_true, if_false]

theorem cutLoop_success (oracle : ℕ → Bool) (now : ℕ) :
    ∀ (segs : List Segment) (i : ℕ) (s : ServerState),
      (∀ j, i ≤ j → j < i + segs.length → oracle j = true) →
      (cutLoop oracle now i segs s).1 =
        (List.enumFrom i segs).map (fun p => EncEvent.cut p.1 p.2.start p.2.stop) ∧
        (cutLoop oracle now i segs s).2.1 = true := by
  intro segs
  induction segs with
  | nil => intro i s _; exact ⟨rfl, rfl⟩
  | cons seg rest ih =>
    intro i s h
    have hi : oracle i = true := h i le_rfl (by simp only [List.length_cons]; omega)
    have ih' := ih (i + 1) { s with tempDisk := s.tempDisk ++ [tempName i now] }
      (fun j hj1 hj2 => h j (by omega) (by simp only [List.length_cons]; omega))
    simp only [cutLoop, hi, if_true]
    refine ⟨?_, ih'.2⟩
    simp only [List.enumFrom, List.map_cons]
    rw [ih'.1]

theorem cutLoop_fail (oracle : ℕ → Bool) (now : ℕ) :
    ∀ (segs : List Segment) (i k : ℕ) (s : ServerState),
      i ≤ k → k < i + segs.length → (∀ j, i ≤ j → j < k → oracle j = true) →
      oracle k = false →
      (cutLoop oracle now i segs s).1 =
        (List.enumFrom i (segs.take (k - i + 1))).map
          (fun p => EncEvent.cut p.1 p.2.start p.2.stop) ∧
        (cutLoop oracle now i segs s).2.1 = false := by
  intro segs
  induction segs with
  | nil => intro i k s h1 h2 _ _; simp at h2; omega
  | cons seg rest ih =>
    intro i k s h1 h2 hall hk
    by_cases hik : i = k
    · subst hik
      simp only [cutLoop, hk, Bool.false_eq_true, if_false]
      constructor
      · have : i - i + 1 = 1 := by omega
        rw [this]
        simp [List.enumFrom]
      · trivial
    · have hlt : i < k := by omega
      have hi : oracle i = true := hall i le_rfl hlt
      have ih' := ih (i + 1) k { s with tempDisk := s.tempDisk ++ [tempName i now] }
        (by omega) (by simp only [List.length_cons] at h2 ⊢; omega)
        (fun j hj1 hj2 => hall j (by omega) hj2) hk
      simp only [cutLoop, hi, if_true]
      refine ⟨?_, ih'.2⟩
      have hsub : k - i + 1 = (k - (i + 1) + 1) + 1 := by omega
      rw [hsub, List.take_succ_cons]
      simp only [List.enumFrom, List.map_cons]
      rw [ih'.1]

theorem concat_not_mem_cuts (l : List (ℕ × Segment)) :
    EncEvent.concat ∉ l.map (fun p => EncEvent.cut p.1 p.2.start p.2.stop) := by
  simp

theorem trackFold_temp (now : ℕ) (cid : String) :
    ∀ (n : ℕ) (s : ServerState) (i : ℕ), i < n →
      mapGet (tempName i now) (getTrackerK .tmp ((List.range n).foldl
        (fun acc j => trackFile now (tempName j now) "temp" cid acc) s)) =
        some ⟨now, cid, false⟩ := by
  intro n
  induction n with
  | zero => intro s i h; omega
  | succ n ih =>
    intro s i h
    rw [List.range_succ, List.foldl_append, List.foldl_cons, List.foldl_nil]
    have htk : tkind "temp" = TKind.tmp := by decide
    rw [trackFile_tracker_same now _ "temp" cid _ _ htk]
    by_cases hi : i = n
    · subst hi
      exact mapGet_mapSet_self _ _ _
    · exact mapGet_mapSet_same_val _ _ _ _ (ih s i (by omega))

theorem trackFold_tokens (now : ℕ) (cid : String) (n : ℕ) (s : ServerState) :
    ((List.range n).foldl (fun acc j => trackFile now (tempName j now) "temp" cid acc)
      s).downloadTokens = s.downloadTokens := by
  refine foldl_preserve (P := fun x => x.downloadTokens = s.downloadTokens) _ ?_ _ s rfl
  intro s' j hp
  rw [trackFile_tokens]
  exact hp

theorem processPipeline_success (now rand : ℕ) (oracle : ℕ → Bool) (clientId : String)
    (segments : List Segment) (s : ServerState)
    (h4 : ∀ i, i ≤ segments.length → oracle i = true) :
    (processPipeline now rand oracle clientId segments s).2.1 =
      segments.enum.map (fun p => EncEvent.cut p.1 p.2.start p.2.stop) ++ [EncEvent.concat] ∧
    (processPipeline now rand oracle clientId segments s).1 =
      ProcessResult.ok (dlToken now rand) ∧
    mapGet (dlToken now rand)
        ((processPipeline now rand oracle clientId segments s).2.2).downloadTokens =
      some ⟨processedName now, now, parseNameStr (origNameOf clientId s)⟩ := by
  have hcut := cutLoop_success oracle now segments 0
    ((List.range segments.length).foldl
      (fun acc i => trackFile now (tempName i now) "temp" clientId acc) s)
    (fun j hj1 hj2 => h4 j (by omega))
  have hconc : oracle segments.length = true := h4 _ le_rfl
  simp only [processPipeline, hcut.2, hconc, if_true]
  refine ⟨?_, by trivial, ?_⟩
  · rw [hcut.1]
    rfl
  · exact mapGet_mapSet_self _ _ _

theorem processPipeline_cutfail (now rand : ℕ) (oracle : ℕ → Bool) (clientId : String)
    (segments : List Segment) (s : ServerState) (k : ℕ) (hk : k < segments.length)
    (hbefore : ∀ j, j < k → oracle j = true) (hfail : oracle k = false) :
    (processPipeline now rand oracle clientId segments s).1 =
      ProcessResult.err 500 "Video processing failed" ∧
    (processPipeline now rand oracle clientId segments s).2.1 =
      (segments.take (k + 1)).enum.map (fun p => EncEvent.cut p.1 p.2.start p.2.stop) ∧
    EncEvent.concat ∉ (processPipeline now rand oracle clientId segments s).2.1 ∧
    ((processPipeline now rand oracle clientId segments s).2.2).downloadTokens =
      s.downloadTokens ∧
    ∀ i, i < segments.length →
      mapGet (tempName i now)
          (getTrackerK .tmp (processPipeline now rand oracle clientId segments s).2.2) =
        some ⟨now, clientId, false⟩ := by
  have hcut := cutLoop_fail oracle now segments 0 k
    ((List.range segments.length).foldl
      (fun acc i => trackFile now (tempName i now) "temp" clientId acc) s)
    (Nat.zero_le k) (by omega) (fun j _ hj2 => hbefore j hj2) hfail
  have hzero : k - 0 + 1 = k + 1 := by omega
  rw [hzero] at hcut
  simp only [processPipeline, hcut.2, Bool.false_eq_true, if_false]
  refine ⟨by trivial, ?_, ?_, ?_, ?_⟩
  · rw [hcut.1]
    rfl
  · rw [hcut.1]
    exact concat_not_mem_cuts _
  · rw [cutLoop_tokens, trackFold_tokens]
  · intro i hi
    rw [cutLoop_trackerK]
    exact trackFold_temp now clientId segments.length s i hi

/-! ### Claim theorems -/

theorem downloadEndpoint_unknown (s : ServerState) (token : String)
    (h : mapGet token s.downloadTokens = none) :
    downloadEndpoint s token = (.notFound "Download link has expired or is invalid.", s) := by
  unfold downloadEndpoint
  rw [h]

/-- C2.  Redemption through the download endpoint succeeds at most once:
after one completed redemption (result `sent`, the `res.download`
callback has run) the token is gone from the store, and a second
redemption of the same token gets the not-found failure used for
unknown/expired tokens. -/
theorem download_redeem_at_most_once (s : ServerState) (token fp dn : String)
    (h : (downloadEndpoint s token).1 = .sent fp dn) :
    mapGet token ((downloadEndpoint s token).2).downloadTokens = none ∧
      (downloadEndpoint ((downloadEndpoint s token).2) token).1 =
        .notFound "Download link has expired or is invalid." := by
  cases hget : mapGet token s.downloadTokens with
  | none =>
    simp [downloadEndpoint, hget] at h
  | some data =>
    by_cases hdisk : data.filename ∈ s.outputDisk
    · have hnone : mapGet token ((downloadEndpoint s token).2).downloadTokens = none := by
        simp only [downloadEndpoint, hget, if_pos hdisk]
        exact mapGet_mapDelete_self token _
      refine ⟨hnone, ?_⟩
      rw [downloadEndpoint_unknown ((downloadEndpoint s token).2) token hnone]
    · simp [downloadEndpoint, hget, hdisk] at h

/-- The concrete state used by the download-endpoint witnesses: one
output file on disk, tracked, with one token for it. -/
def wStateDl : ServerState :=
  ⟨[], [("out.mp4", ⟨0, "c1", false⟩)], [], [],
    [("tok", ⟨"out.mp4", 0, "vid"⟩)], [], ["out.mp4"], []⟩

theorem download_redeem_at_most_once_witness :
    (downloadEndpoint wStateDl "tok").1 = .sent "out.mp4" "vid-vidsnip-edited.mp4" ∧
    mapGet "tok" ((downloadEndpoint wStateDl "tok").2).downloadTokens = none ∧
    (downloadEndpoint ((downloadEndpoint wStateDl "tok").2) "tok").1 =
      .notFound "Download link has expired or is invalid." := by
  have h : (downloadEndpoint wStateDl "tok").1 =
      .sent "out.mp4" "vid-vidsnip-edited.mp4" := by decide
  have h2 := download_redeem_at_most_once wStateDl "tok" "out.mp4" "vid-vidsnip-edited.mp4" h
  exact ⟨h, h2.1, h2.2⟩

/-- C10.  When the token is in the store but its result file is missing
from the output directory, the endpoint answers the file-not-found 404
and consumes nothing: the state is unchanged and the token is still in
the store afterwards. -/
theorem download_missing_file_keeps_token (s : ServerState) (token : String)
    (data : TokenData) (h1 : mapGet token s.downloadTokens = some data)
    (h2 : data.filename ∉ s.outputDisk) :
    downloadEndpoint s token = (.notFound "File not found on server.", s) ∧
      mapGet token ((downloadEndpoint s token).2).downloadTokens = some data := by
  have heq : downloadEndpoint s token = (.notFound "File not found on server.", s) := by
    simp [downloadEndpoint, h1, h2]
  exact ⟨heq, by rw [heq]; exact h1⟩

def wStateMissing : ServerState :=
  ⟨[], [], [], [], [("tok", ⟨"gone.mp4", 0, "vid"⟩)], [], [], []⟩

theorem download_missing_file_keeps_token_witness :
    downloadEndpoint wStateMissing "tok" =
      (.notFound "File not found on server.", wStateMissing) ∧
    mapGet "tok" ((downloadEndpoint wStateMissing "tok").2).downloadTokens =
      some ⟨"gone.mp4", 0, "vid"⟩ :=
  download_missing_file_keeps_token wStateMissing "tok" ⟨"gone.mp4", 0, "vid"⟩
    (by decide) (by decide)

/-- C3, counterexample.  The download endpoint performs no age check:
a token whose age exceeds the retention window but which no sweep has
removed still redeems successfully, so an expired token is NOT treated
like an unknown token "regardless of whether a garbage-collector sweep
has run". -/
theorem download_no_expiry_check_cex :
    maxAge + 1 - (0 : ℕ) > maxAge ∧
    (downloadEndpoint wStateDl "tok").1 = .sent "out.mp4" "vid-vidsnip-edited.mp4" := by
  decide

/-- C3, amended.  Once a garbage-collector sweep has run at a time when
the token's age exceeds the retention window, the token is gone from
the store, and redeeming it is exactly the unknown-token case: the same
404 failure, with the state untouched.  (Without such a sweep the
endpoint performs no age check, see the counterexample.) -/
theorem expired_token_after_sweep (now : ℕ) (s : ServerState) (tok : String)
    (td : TokenData) (hnd : (s.downloadTokens.map Prod.fst).Nodup)
    (htok : mapGet tok s.downloadTokens = some td)
    (hage : now - td.created > maxAge) :
    mapGet tok (scheduledCleanup now s).downloadTokens = none ∧
      downloadEndpoint (scheduledCleanup now s) tok =
        (.notFound "Download link has expired or is invalid.", scheduledCleanup now s) := by
  have hnone : mapGet tok (scheduledCleanup now s).downloadTokens = none := by
    rw [scheduledCleanup_tokens]
    refine mapGet_filter_none tok td _ s.downloadTokens hnd htok ?_
    simp [hage]
  refine ⟨hnone, ?_⟩
  exact downloadEndpoint_unknown _ tok hnone

def wStateExpired : ServerState :=
  ⟨[], [], [], [], [("tok", ⟨"out.mp4", 0, "vid"⟩)], [], ["out.mp4"], []⟩

theorem expired_token_after_sweep_witness :
    mapGet "tok" (scheduledCleanup (maxAge + 1) wStateExpired).downloadTokens = none ∧
      downloadEndpoint (scheduledCleanup (maxAge + 1) wStateExpired) "tok" =
        (.notFound "Download link has expired or is invalid.",
          scheduledCleanup (maxAge + 1) wStateExpired) :=
  expired_token_after_sweep (maxAge + 1) wStateExpired "tok" ⟨"out.mp4", 0, "vid"⟩
    (by decide) (by decide) (by decide)

/-- C5.  For a valid request (non-empty filename, non-empty segment
list, source present in the uploads directory) in which every encoder
invocation succeeds, the pipeline performs exactly one cut invocation
per segment, in submission order, followed by exactly one concatenation
invocation, and only then issues the download token, which is bound to
the result file in the token store.  (The trace equality also shows no
concatenation happens before the last cut.) -/
theorem process_pipeline_sequence (now rand : ℕ) (oracle : ℕ → Bool)
    (filename clientId : String) (segments : List Segment) (s : ServerState)
    (h1 : filename ≠ "") (h2 : segments ≠ []) (h3 : filename ∈ s.uploadsDisk)
    (h4 : ∀ i, i ≤ segments.length → oracle i = true) :
    (processEndpoint now rand oracle filename clientId segments s).2.1 =
      segments.enum.map (fun p => EncEvent.cut p.1 p.2.start p.2.stop) ++
        [EncEvent.concat] ∧
    (processEndpoint now rand oracle filename clientId segments s).1 =
      ProcessResult.ok (dlToken now rand) ∧
    mapGet (dlToken now rand)
        ((processEndpoint now rand oracle filename clientId segments s).2.2).downloadTokens =
      some ⟨processedName now, now, parseNameStr (origNameOf clientId s)⟩ := by
  have hval : ¬(filename = "" ∨ segments.isEmpty = true) := by
    rintro (h | h)
    · exact h1 h
    · exact h2 (List.isEmpty_iff.mp h)
  simp only [processEndpoint, if_neg hval, if_pos h3]
  exact processPipeline_success now rand oracle clientId segments s h4

def wStateSrc : ServerState := ⟨[], [], [], [], [], ["src.mp4"], [], []⟩

def wsegs : List Segment := [⟨0, 2, "#0077BE"⟩, ⟨5, 7, "#00A8E8"⟩]

theorem process_pipeline_sequence_witness :
    (processEndpoint 1 2 (fun _ => true) "src.mp4" "c1" wsegs wStateSrc).2.1 =
      wsegs.enum.map (fun p => EncEvent.cut p.1 p.2.start p.2.stop) ++
        [EncEvent.concat] ∧
    (processEndpoint 1 2 (fun _ => true) "src.mp4" "c1" wsegs wStateSrc).1 =
      ProcessResult.ok (dlToken 1 2) ∧
    mapGet (dlToken 1 2)
        ((processEndpoint 1 2 (fun _ => true) "src.mp4" "c1" wsegs wStateSrc).2.2).downloadTokens =
      some ⟨processedName 1, 1, parseNameStr (origNameOf "c1" wStateSrc)⟩ :=
  process_pipeline_sequence 1 2 (fun _ => true) "src.mp4" "c1" wsegs wStateSrc
    (by decide) (by decide) (by decide) (fun _ _ => rfl)

/-- C6.  When the cut of segment `k` (with `k < N`) fails after all
earlier cuts succeeded, the pipeline aborts: the caller gets the single
opaque 500 processing-failed error, the trace contains the cuts up to
and including the failed one and no concatenation invocation, the
token store is untouched, and every temp filename registered up front
(all `N` of them, registered before any encoder ran) is still tracked
for the garbage collector. -/
theorem process_pipeline_failure_aborts (now rand : ℕ) (oracle : ℕ → Bool)
    (filename clientId : String) (segments : List Segment) (s : ServerState) (k : ℕ)
    (h1 : filename ≠ "") (h2 : segments ≠ []) (h3 : filename ∈ s.uploadsDisk)
    (hk : k < segments.length) (hbefore : ∀ j, j < k → oracle j = true)
    (hfail : oracle k = false) :
    (processEndpoint now rand oracle filename clientId segments s).1 =
      ProcessResult.err 500 "Video processing failed" ∧
    (processEndpoint now rand oracle filename clientId segments s).2.1 =
      (segments.take (k + 1)).enum.map (fun p => EncEvent.cut p.1 p.2.start p.2.stop) ∧
    EncEvent.concat ∉ (processEndpoint now rand oracle filename clientId segments s).2.1 ∧
    ((processEndpoint now rand oracle filename clientId segments s).2.2).downloadTokens =
      s.downloadTokens ∧
    ∀ i, i < segments.length →
      mapGet (tempName i now)
          (getTrackerK .tmp
            (processEndpoint now rand oracle filename clientId segments s).2.2) =
        some ⟨now, clientId, false⟩ := by
  have hval : ¬(filename = "" ∨ segments.isEmpty = true) := by
    rintro (h | h)
    · exact h1 h
    · exact h2 (List.isEmpty_iff.mp h)
  simp only [processEndpoint, if_neg hval, if_pos h3]
  exact processPipeline_cutfail now rand oracle clientId segments s k hk hbefore hfail

def wsegs3 : List Segment := [⟨0, 2, "#0077BE"⟩, ⟨3, 4, "#00A8E8"⟩, ⟨5, 7, "#00C9FF"⟩]

theorem process_pipeline_failure_aborts_witness :
    (processEndpoint 1 2 (fun j => decide (j < 1)) "src.mp4" "c1" wsegs3 wStateSrc).1 =
      ProcessResult.err 500 "Video processing failed" ∧
    (processEndpoint 1 2 (fun j => decide (j < 1)) "src.mp4" "c1" wsegs3 wStateSrc).2.1 =
      (wsegs3.take 2).enum.map (fun p => EncEvent.cut p.1 p.2.start p.2.stop) ∧
    EncEvent.concat ∉
      (processEndpoint 1 2 (fun j => decide (j < 1)) "src.mp4" "c1" wsegs3 wStateSrc).2.1 ∧
    ((processEndpoint 1 2 (fun j => decide (j < 1)) "src.mp4" "c1" wsegs3
        wStateSrc).2.2).downloadTokens = wStateSrc.downloadTokens ∧
    ∀ i, i < wsegs3.length →
      mapGet (tempName i 1)
          (getTrackerK .tmp (processEndpoint 1 2 (fun j => decide (j < 1)) "src.mp4" "c1"
            wsegs3 wStateSrc).2.2) =
        some ⟨1, "c1", false⟩ :=
  process_pipeline_failure_aborts 1 2 (fun j => decide (j < 1)) "src.mp4" "c1" wsegs3
    wStateSrc 1 (by decide) (by decide) (by decide) (by decide)
    (fun j hj => decide_eq_true hj) (by decide)

/-- C4, counterexample.  A tracked entry that is not in-use and older
than the retention window is NOT deleted by the next sweep when its
file is absent from disk (`deleteFile` returns false before touching
the tracker when `existsSync` fails): the entry survives the sweep. -/
def cexGhost : ServerState :=
  ⟨[], [], [("ghost.mp4", ⟨0, "c1", false⟩)], [], [], [], [], []⟩

theorem sweep_misses_diskless_file_cex :
    (FileData.inUse ⟨0, "c1", false⟩ = false ∧ maxAge + 1 - (0 : ℕ) > maxAge) ∧
    mapGet "ghost.mp4" (getTracker "temp" (scheduledCleanup (maxAge + 1) cexGhost)) =
      some ⟨0, "c1", false⟩ := by
  decide

/-- C4, amended.  (1) A tracked file whose in-use flag is true is never
deleted by a sweep or by cleanupClientFiles, regardless of age: the
tracker entry survives unchanged and the disk file (when present)
survives.  (2) A tracked file whose in-use flag is false and whose age
exceeds the retention window is deleted by the next sweep, provided the
file is present on disk; a tracked name without a disk file is skipped
(see the counterexample). -/
theorem tracked_file_protection (now : ℕ) (fn ft : String) (d : FileData)
    (s : ServerState) :
    (mapGet fn (getTracker ft s) = some d → d.inUse = true →
      mapGet fn (getTracker ft (scheduledCleanup now s)) = some d ∧
        (fn ∈ getDisk ft s → fn ∈ getDisk ft (scheduledCleanup now s)) ∧
        ∀ cid, mapGet fn (getTracker ft (cleanupClientFiles cid s)) = some d ∧
          (fn ∈ getDisk ft s → fn ∈ getDisk ft (cleanupClientFiles cid s))) ∧
    (mapGet fn (getTracker ft s) = some d → d.inUse = false →
      now - d.timestamp > maxAge → fn ∈ getDisk ft s →
      mapGet fn (getTracker ft (scheduledCleanup now s)) = none ∧
        fn ∉ getDisk ft (scheduledCleanup now s)) := by
  constructor
  · intro he hd
    refine ⟨scheduledCleanup_inuse now fn (tkind ft) d s hd he,
      fun hm => (scheduledCleanup_inuse_disk now fn (tkind ft) d s hd he hm).2,
      fun cid => ⟨cleanupClientFiles_inuse cid fn (tkind ft) d s hd he,
        fun hm => (cleanupClientFiles_inuse_disk cid fn (tkind ft) d s hd he hm).2⟩⟩
  · intro he hd hage hm
    exact scheduledCleanup_gone_of_old now fn (tkind ft) d s hd hage (Or.inl ⟨he, hm⟩)

def cexInUse : ServerState :=
  ⟨[("f.mp4", ⟨0, "c1", true⟩)], [], [], [], [], ["f.mp4"], [], []⟩

def cexOld : ServerState :=
  ⟨[("g.mp4", ⟨0, "c1", false⟩)], [], [], [], [], ["g.mp4"], [], []⟩

theorem tracked_file_protection_witness :
    mapGet "f.mp4" (getTracker "upload" (scheduledCleanup (maxAge + 1) cexInUse)) =
      some ⟨0, "c1", true⟩ ∧
    "f.mp4" ∈ getDisk "upload" (scheduledCleanup (maxAge + 1) cexInUse) ∧
    mapGet "f.mp4" (getTracker "upload" (cleanupClientFiles "c1" cexInUse)) =
      some ⟨0, "c1", true⟩ ∧
    mapGet "g.mp4" (getTracker "upload" (scheduledCleanup (maxAge + 1) cexOld)) = none ∧
    "g.mp4" ∉ getDisk "upload" (scheduledCleanup (maxAge + 1) cexOld) := by
  have hA := (tracked_file_protection (maxAge + 1) "f.mp4" "upload" ⟨0, "c1", true⟩
    cexInUse).1 (by decide) (by decide)
  have hB := (tracked_file_protection (maxAge + 1) "g.mp4" "upload" ⟨0, "c1", false⟩
    cexOld).2 (by decide) (by decide) (by decide) (by decide)
  exact ⟨hA.1, hA.2.1 (by decide), (hA.2.2 "c1").1, hB.1, hB.2⟩

/-- C7, counterexample.  trackFile is not idempotent on the session's
file list: a second call with identical arguments (and the same clock
value, so timestamps cannot be blamed) appends a duplicate
`{ filename, type }` entry to `files`. -/
def emptyState : ServerState := ⟨[], [], [], [], [], [], [], []⟩

theorem trackFile_not_idempotent_cex :
    mapGet "c1" (trackFile 0 "a.mp4" "upload" "c1"
        (trackFile 0 "a.mp4" "upload" "c1" emptyState)).clients =
      some ⟨0, [⟨"a.mp4", "upload"⟩, ⟨"a.mp4", "upload"⟩], none⟩ ∧
    mapGet "c1" (trackFile 0 "a.mp4" "upload" "c1" emptyState).clients =
      some ⟨0, [⟨"a.mp4", "upload"⟩], none⟩ := by
  decide

/-- C7, amended.  Calling trackFile twice with the same arguments (and
the same clock value) leaves every tracker map equal to the state after
one call — the tracker registration is idempotent per filename — but
the session's file list is NOT left equal: the second call appends one
more duplicate `{ filename, type }` entry. -/
theorem trackFile_tracker_idempotent_files_dup (now : ℕ) (fn ft cid : String)
    (s : ServerState) :
    (∀ k : TKind, getTrackerK k (trackFile now fn ft cid (trackFile now fn ft cid s)) =
      getTrackerK k (trackFile now fn ft cid s)) ∧
    (∃ cd, mapGet cid (trackFile now fn ft cid s).clients = some cd ∧
      mapGet cid (trackFile now fn ft cid (trackFile now fn ft cid s)).clients =
        some { cd with files := cd.files ++ [⟨fn, ft⟩] }) := by
  constructor
  · intro k
    by_cases hk : tkind ft = k
    · rw [trackFile_tracker_same now fn ft cid _ k hk,
        trackFile_tracker_same now fn ft cid s k hk, mapSet_idem]
    · exact trackFile_tracker_ne now fn ft cid _ k hk
  · refine ⟨trackClientData now fn ft cid s, trackFile_clients_self now fn ft cid s, ?_⟩
    rw [trackFile_clients_self now fn ft cid (trackFile now fn ft cid s)]
    have hsecond : trackClientData now fn ft cid (trackFile now fn ft cid s) =
        { trackClientData now fn ft cid s with
            files := (trackClientData now fn ft cid s).files ++ [⟨fn, ft⟩],
            lastActivity := now } := by
      unfold trackClientData
      rw [trackFile_clients_self now fn ft cid s]
      rfl
    rw [hsecond]
    have hla := trackClientData_lastActivity now fn ft cid s
    cases htc : trackClientData now fn ft cid s with
    | mk la files orig =>
      rw [htc] at hla
      simp at hla
      rw [hla]

/-- C8, counterexample.  A successful deleteFile call does not update
the owning session's last-activity timestamp: it leaves the clients map
(and hence `lastActivity`, still the tracking-time 0 here) completely
unchanged — deleteFile does not even take the current time. -/
def cexDelete : ServerState :=
  ⟨[("f.mp4", ⟨0, "c1", false⟩)], [], [],
    [("c1", ⟨0, [⟨"f.mp4", "upload"⟩], none⟩)], [], ["f.mp4"], [], []⟩

theorem deleteFile_no_lastActivity_cex :
    (deleteFile "f.mp4" "upload" cexDelete).1 = true ∧
    mapGet "c1" ((deleteFile "f.mp4" "upload" cexDelete).2).clients =
      some ⟨0, [⟨"f.mp4", "upload"⟩], none⟩ := by
  decide

/-- C8, amended.  Every registration (trackFile) sets the owning
session's last-activity timestamp to the current time, but deletion
(deleteFile) never touches the clients map at all, so it does not
update any last-activity timestamp. -/
theorem registration_updates_lastActivity_deletion_does_not
    (now : ℕ) (fn ft cid : String) (s : ServerState) :
    (∃ cd, mapGet cid (trackFile now fn ft cid s).clients = some cd ∧
      cd.lastActivity = now) ∧
    ((deleteFile fn ft s).2).clients = s.clients :=
  ⟨⟨trackClientData now fn ft cid s, trackFile_clients_self now fn ft cid s,
    trackClientData_lastActivity now fn ft cid s⟩, deleteFile_clients_eq fn ft s⟩

/-- C9, counterexample.  A session inactive past the heartbeat timeout
is removed by the collector run, but a file it had tracked — not
in-use, yet absent from disk — is NOT deleted: its tracker entry
survives the run, contradicting "every file it had tracked is deleted
... except in-use files". -/
def cexGhostClient : ServerState :=
  ⟨[], [], [("ghost.mp4", ⟨0, "c1", false⟩)],
    [("c1", ⟨0, [⟨"ghost.mp4", "temp"⟩], none⟩)], [], [], [], []⟩

theorem collector_leaves_ghost_tracked_cex :
    (heartbeatTimeout + 1 - (0 : ℕ) > heartbeatTimeout ∧
      FileData.inUse ⟨0, "c1", false⟩ = false) ∧
    mapGet "c1" (scheduledCleanup (heartbeatTimeout + 1) cexGhostClient).clients = none ∧
    mapGet "ghost.mp4"
        (getTracker "temp" (scheduledCleanup (heartbeatTimeout + 1) cexGhostClient)) =
      some ⟨0, "c1", false⟩ := by
  decide

/-- C9, amended.  For a session whose last activity is older than the
heartbeat timeout at collector-run time: after the run the session is
absent from the session map; every file it had tracked whose in-use
flag is true remains tracked unchanged; and every file it had tracked
that is not in-use AND present on disk is deleted from both disk and
tracker (a tracked name with no disk file survives, see the
counterexample). -/
theorem inactive_session_cleanup (now : ℕ) (cid : String) (cd : ClientData)
    (s : ServerState) (hcd : mapGet cid s.clients = some cd)
    (hold : now - cd.lastActivity > heartbeatTimeout) :
    mapGet cid (scheduledCleanup now s).clients = none ∧
    (∀ f ∈ cd.files, ∀ d : FileData,
      mapGet f.filename (getTracker f.ftype s) = some d → d.inUse = true →
      mapGet f.filename (getTracker f.ftype (scheduledCleanup now s)) = some d) ∧
    (∀ f ∈ cd.files, ∀ d : FileData,
      mapGet f.filename (getTracker f.ftype s) = some d → d.inUse = false →
      f.filename ∈ getDisk f.ftype s →
      mapGet f.filename (getTracker f.ftype (scheduledCleanup now s)) = none ∧
        f.filename ∉ getDisk f.ftype (scheduledCleanup now s)) := by
  refine ⟨scheduledCleanup_client_gone now cid cd s hcd hold, ?_, ?_⟩
  · intro f _ d he hd
    exact scheduledCleanup_inuse now f.filename (tkind f.ftype) d s hd he
  · intro f hf d he hd hm
    exact scheduledCleanup_client_file_gone now cid cd f d s hcd hold hf hd he hm

def cexSession : ServerState :=
  ⟨[("u.mp4", ⟨0, "c1", true⟩), ("v.mp4", ⟨0, "c1", false⟩)], [], [],
    [("c1", ⟨0, [⟨"u.mp4", "upload"⟩, ⟨"v.mp4", "upload"⟩], none⟩)], [],
    ["u.mp4", "v.mp4"], [], []⟩

theorem inactive_session_cleanup_witness :
    mapGet "c1" (scheduledCleanup (heartbeatTimeout + 1) cexSession).clients = none ∧
    mapGet "u.mp4" (getTracker "upload" (scheduledCleanup (heartbeatTimeout + 1)
      cexSession)) = some ⟨0, "c1", true⟩ ∧
    mapGet "v.mp4" (getTracker "upload" (scheduledCleanup (heartbeatTimeout + 1)
      cexSession)) = none ∧
    "v.mp4" ∉ getDisk "upload" (scheduledCleanup (heartbeatTimeout + 1) cexSession) := by
  have h := inactive_session_cleanup (heartbeatTimeout + 1) "c1"
    ⟨0, [⟨"u.mp4", "upload"⟩, ⟨"v.mp4", "upload"⟩], none⟩ cexSession (by decide) (by decide)
  have hu := h.2.1 ⟨"u.mp4", "upload"⟩ (by decide) ⟨0, "c1", true⟩ (by decide) (by decide)
  have hv := h.2.2 ⟨"v.mp4", "upload"⟩ (by decide) ⟨0, "c1", false⟩ (by decide) (by decide)
    (by decide)
  exact ⟨h.1, hu, hv.1, hv.2⟩
